import Mathlib

/-!
Verification development for the filesystem-api server (`main.py`).

The core of the program is `safe_path`, which maps an untrusted path string to
an absolute location inside the sandbox root `BASE_DIR`, plus the endpoint
handlers (`list_directory`, `read_file`, `write_file`,
`delete_file_or_directory`, `copy_file_or_directory`) and the metadata helper
`get_file_info`.

Embedding conventions:
* An absolute filesystem path is a `List String` of components (so `/data/a/b`
  is `["data", "a", "b"]`).  `BASE_DIR` defaults to `/data`, i.e. `["data"]`;
  all definitions are parametrised by the canonicalized base components.
* The state of the sandbox subtree is an `Entry` tree (mutual inductive with
  `Children`); the tree is rooted at the sandbox root.  File contents are byte
  lists (`List Nat`, each entry a byte value).  `statOk = false` on a node
  models an `os.stat` call that raises (permission denied / vanished entry).
* `HTTPException(status, detail)` is modelled by `ApiError`.  Python renders
  exception messages with `str(e)`; the model uses fixed stand-in detail
  strings for OS-level errors.
* `urllib.parse.unquote` is modelled byte-accurately for percent-escapes
  (maximal runs of `%XX` are decoded as UTF-8); the `errors='replace'`
  recovery on invalid byte sequences is modelled by emitting U+FFFD and
  resynchronising one byte later, which agrees with CPython on every valid
  UTF-8 run (the only case exercised here).
* `pathlib.Path.resolve` with no symlinks present is left-to-right lexical
  normalization of `.` and `..` against the already-resolved prefix, which is
  what `resolvePath` implements; `Path.relative_to` is the component-wise
  prefix test `listPre`.
-/

namespace FsApi

/-- `HTTPException(status_code, detail)` from FastAPI, as raised in `main.py`. -/
structure ApiError where
  status : Nat
  detail : String
deriving DecidableEq, Repr

/-- The error raised by `safe_path` when the resolved path escapes the base
directory: `HTTPException(400, "Invalid path: outside base directory")`. -/
def invalidPathError : ApiError :=
  ⟨400, "Invalid path: outside base directory"⟩

/-! ### UTF-8 codec (used by `urllib.parse.unquote`, `read_text`, `write_text`) -/

/-- UTF-8 encoding of one Unicode scalar value, written with `/` and `%` so
that the byte arithmetic is visible to `omega`. -/
def utf8EncodeChar (n : Nat) : List Nat :=
  if n < 128 then [n]
  else if n < 2048 then [192 + n / 64, 128 + n % 64]
  else if n < 65536 then [224 + n / 4096, 128 + n / 64 % 64, 128 + n % 64]
  else [240 + n / 262144, 128 + n / 4096 % 64, 128 + n / 64 % 64, 128 + n % 64]

/-- UTF-8 encoding of a character sequence (Python `str.encode('utf-8')`). -/
def utf8EncodeList : List Char → List Nat
  | [] => []
  | c :: cs => utf8EncodeChar c.toNat ++ utf8EncodeList cs

/- Strict UTF-8 decoding to scalar values; `none` models
`UnicodeDecodeError` (Python `bytes.decode('utf-8')`).  Overlong encodings,
surrogates, and scalars above U+10FFFF are rejected, as CPython does.  The
2-, 3- and 4-byte sequence cases are split into mutual helpers, one per
leading-byte class. -/
mutual
def utf8DecodeAux : List Nat → Option (List Nat)
  | [] => some []
  | b :: bs =>
    if b < 128 then (utf8DecodeAux bs).map (b :: ·)
    else if b < 194 then none
    else if b < 224 then utf8Dec2 b bs
    else if b < 240 then utf8Dec3 b bs
    else if b < 245 then utf8Dec4 b bs
    else none
def utf8Dec2 (b : Nat) : List Nat → Option (List Nat)
  | b1 :: bs1 =>
    if 128 ≤ b1 ∧ b1 < 192 then
      (utf8DecodeAux bs1).map (((b - 192) * 64 + (b1 - 128)) :: ·)
    else none
  | [] => none
def utf8Dec3 (b : Nat) : List Nat → Option (List Nat)
  | b1 :: b2 :: bs2 =>
    if (128 ≤ b1 ∧ b1 < 192) ∧ (128 ≤ b2 ∧ b2 < 192) ∧
        (b = 224 → 160 ≤ b1) ∧ (b = 237 → b1 < 160) then
      (utf8DecodeAux bs2).map
        (((b - 224) * 4096 + (b1 - 128) * 64 + (b2 - 128)) :: ·)
    else none
  | _ => none
def utf8Dec4 (b : Nat) : List Nat → Option (List Nat)
  | b1 :: b2 :: b3 :: bs3 =>
    if (128 ≤ b1 ∧ b1 < 192) ∧ (128 ≤ b2 ∧ b2 < 192) ∧
        (128 ≤ b3 ∧ b3 < 192) ∧ (b = 240 → 144 ≤ b1) ∧ (b = 244 → b1 < 144) then
      (utf8DecodeAux bs3).map
        (((b - 240) * 262144 + (b1 - 128) * 4096 + (b2 - 128) * 64 + (b3 - 128)) :: ·)
    else none
  | _ => none
end

/-- Strict UTF-8 decoding to characters. -/
def utf8DecodeChars (bs : List Nat) : Option (List Char) :=
  (utf8DecodeAux bs).map (List.map Char.ofNat)

/-- Universal-newline translation performed by text-mode reads
(`open(..., newline=None)`, hence `Path.read_text`): after decoding, both
`\r\n` and a lone `\r` become `\n`.  (On the write side `newline=None`
translates `\n` to `os.linesep`, which is `\n` on the Linux deployment, so
writes are unaffected.) -/
def univNewlines : List Char → List Char
  | [] => []
  | c :: rest =>
    if c = '\r' then
      match rest with
      | '\n' :: rest2 => '\n' :: univNewlines rest2
      | [] => ['\n']
      | c2 :: rest2 => '\n' :: univNewlines (c2 :: rest2)
    else c :: univNewlines rest

/-- UTF-8 decoding with `errors='replace'`: invalid sequences produce U+FFFD
and decoding resynchronises.  Used by `urllib.parse.unquote`. -/
def utf8ReplAux : List Nat → List Nat
  | [] => []
  | b :: bs =>
    if b < 128 then b :: utf8ReplAux bs
    else if b < 194 then 65533 :: utf8ReplAux bs
    else if b < 224 then
      match bs with
      | b1 :: bs1 =>
        if 128 ≤ b1 ∧ b1 < 192 then
          ((b - 192) * 64 + (b1 - 128)) :: utf8ReplAux bs1
        else 65533 :: utf8ReplAux (b1 :: bs1)
      | [] => [65533]
    else if b < 240 then
      match bs with
      | b1 :: b2 :: bs2 =>
        if (128 ≤ b1 ∧ b1 < 192) ∧ (128 ≤ b2 ∧ b2 < 192) ∧
            (b = 224 → 160 ≤ b1) ∧ (b = 237 → b1 < 160) then
          ((b - 224) * 4096 + (b1 - 128) * 64 + (b2 - 128)) :: utf8ReplAux bs2
        else 65533 :: utf8ReplAux (b1 :: b2 :: bs2)
      | bs' => 65533 :: utf8ReplAux bs'
    else if b < 245 then
      match bs with
      | b1 :: b2 :: b3 :: bs3 =>
        if (128 ≤ b1 ∧ b1 < 192) ∧ (128 ≤ b2 ∧ b2 < 192) ∧
            (128 ≤ b3 ∧ b3 < 192) ∧ (b = 240 → 144 ≤ b1) ∧ (b = 244 → b1 < 144) then
          ((b - 240) * 262144 + (b1 - 128) * 4096 + (b2 - 128) * 64 + (b3 - 128)) ::
            utf8ReplAux bs3
        else 65533 :: utf8ReplAux (b1 :: b2 :: b3 :: bs3)
      | bs' => 65533 :: utf8ReplAux bs'
    else 65533 :: utf8ReplAux bs

/-! ### `urllib.parse.unquote` -/

/-- Value of a hexadecimal digit character, `none` for non-hex input. -/
def hexVal? (c : Char) : Option Nat :=
  if '0' ≤ c ∧ c ≤ '9' then some (c.toNat - 48)
  else if 'a' ≤ c ∧ c ≤ 'f' then some (c.toNat - 87)
  else if 'A' ≤ c ∧ c ≤ 'F' then some (c.toNat - 55)
  else none

/-- Decode an accumulated run of percent-escaped bytes with replacement. -/
def replChars (acc : List Nat) : List Char :=
  (utf8ReplAux acc).map Char.ofNat

/-- Worker for `urllib.parse.unquote`: `acc` is the pending run of `%XX`
bytes, flushed (UTF-8 decoded with replacement) at the first literal
character or the end of the input; a `%` not followed by two hex digits is
literal. -/
def unquoteAux : List Char → List Nat → List Char
  | [], acc => replChars acc
  | c :: rest, acc =>
    if c = '%' then
      match rest with
      | h1 :: h2 :: rest2 =>
        match hexVal? h1, hexVal? h2 with
        | some a, some b => unquoteAux rest2 (acc ++ [16 * a + b])
        | _, _ => replChars acc ++ c :: unquoteAux (h1 :: h2 :: rest2) []
      | [h1] => replChars acc ++ c :: unquoteAux [h1] []
      | [] => replChars acc ++ [c]
    else replChars acc ++ c :: unquoteAux rest []

/-- `urllib.parse.unquote` on the character list of a string. -/
def unquoteChars (l : List Char) : List Char :=
  unquoteAux l []

/-! ### Path components and normalization -/

/-- Split a character list at `/` separators (worker, accumulating the
current component in reverse). -/
def splitSlashAux : List Char → List Char → List String
  | [], cur => [⟨cur.reverse⟩]
  | c :: rest, cur =>
    if c = '/' then ⟨cur.reverse⟩ :: splitSlashAux rest []
    else splitSlashAux rest (c :: cur)

/-- Path components of a relative path string: split at `/` and drop empty
components (pathlib collapses repeated separators and trailing separators). -/
def pathComponents (l : List Char) : List String :=
  (splitSlashAux l []).filter (fun t => t ≠ "")

/-- One step of `Path.resolve` normalization: `.` is dropped, `..` pops the
last component (a no-op at the filesystem root), anything else is pushed. -/
def normStep (stack : List String) (comp : String) : List String :=
  if comp = "." then stack
  else if comp = ".." then stack.dropLast
  else stack ++ [comp]

/-- `Path.resolve()` of `base / comps` with no symlinks present: lexical
left-to-right normalization starting from the canonical base. -/
def resolvePath (base comps : List String) : List String :=
  comps.foldl normStep base

/-- Component-wise prefix test: exactly the success condition of
`resolved_path.relative_to(base_path)` in `safe_path`. -/
def listPre {α : Type} [DecidableEq α] : List α → List α → Bool
  | [], _ => true
  | _ :: _, [] => false
  | a :: as, b :: bs => if a = b then listPre as bs else false

/-- `safe_path` from `main.py`: URL-decode once, strip leading separators,
join onto the canonical base, resolve, then verify containment with
`relative_to` (component-wise).  Failure is
`HTTPException(400, "Invalid path: outside base directory")`. -/
def safe_path (base : List String) (path : String) : Except ApiError (List String) :=
  let decoded := unquoteChars path.data
  let stripped := decoded.dropWhile (fun c => c = '/')
  let comps := pathComponents stripped
  let resolved := resolvePath base comps
  if listPre base resolved then Except.ok resolved else Except.error invalidPathError

/-- The default sandbox root `/data` (`FILESYSTEM_BASE_DIR` unset), as
canonical components. -/
def baseData : List String := ["data"]

/-! ### The filesystem state

A snapshot of the subtree under the sandbox root.  `statOk = false` on a
node models an entry whose `os.stat` raises (permission denied, vanished
entry); `perm` is the low 12 permission bits of the mode, `mtime` the
modification timestamp (the ISO-8601 rendering by `datetime` is kept
abstract: the model stores the raw timestamp). -/

mutual
inductive Entry where
  | file : List Nat → Nat → Nat → Bool → Entry
  | dir : Children → Nat → Nat → Bool → Entry
inductive Children where
  | nil : Children
  | cons : String → Entry → Children → Children
end

deriving instance DecidableEq for Entry, Children
deriving instance Repr for Entry, Children

/-- Whether `os.stat` succeeds on this entry. -/
def Entry.statOk : Entry → Bool
  | .file _ _ _ s => s
  | .dir _ _ _ s => s

/-- `st_mode` of the entry: the file-type bits (`S_IFREG = 0o100000`,
`S_IFDIR = 0o40000`) together with the permission bits. -/
def Entry.stMode : Entry → Nat
  | .file _ p _ _ => 32768 + p
  | .dir _ p _ _ => 16384 + p

/-- First child with the given name (`dir / name` resolution). -/
def findChild : Children → String → Option Entry
  | .nil, _ => none
  | .cons m e cs, n => if m = n then some e else findChild cs n

/-- Replace the child with the given name, or append it. -/
def setChild : Children → String → Entry → Children
  | .nil, n, v => .cons n v .nil
  | .cons m e cs, n, v =>
    if m = n then .cons m v cs else .cons m e (setChild cs n v)

/- Navigate an entry along relative path components. -/
mutual
def lookup : Entry → List String → Option Entry
  | e, [] => some e
  | .file _ _ _ _, _ :: _ => none
  | .dir cs _ _ _, n :: rest => lookupIn cs n rest
def lookupIn : Children → String → List String → Option Entry
  | .nil, _, _ => none
  | .cons m e cs, n, rest => if m = n then lookup e rest else lookupIn cs n rest
end

/-- Navigate an optional root (the root directory itself may have been
removed). -/
def lookupFS : Option Entry → List String → Option Entry
  | none, _ => none
  | some r, rel => lookup r rel

/-- `Path.exists()`: an `os.stat` that succeeds (a present entry whose stat
raises makes `exists()` return `False`). -/
def existsAt (fs : Option Entry) (rel : List String) : Bool :=
  match lookupFS fs rel with
  | some e => e.statOk
  | none => false

/-- `Path.is_dir()`. -/
def isDirAt (fs : Option Entry) (rel : List String) : Bool :=
  match lookupFS fs rel with
  | some (.dir _ _ _ s) => s
  | _ => false

/-- `Path.is_file()`. -/
def isFileAt (fs : Option Entry) (rel : List String) : Bool :=
  match lookupFS fs rel with
  | some (.file _ _ _ s) => s
  | _ => false

/-- A chain of fresh empty directories ending in an empty directory, as
created by `mkdir(parents=True)` below a missing component (mode `0o755`,
model timestamp `0`). -/
def freshChain : List String → Entry
  | [] => .dir .nil 493 0 true
  | n :: rest => .dir (.cons n (freshChain rest) .nil) 493 0 true

/- `path.mkdir(parents=True, exist_ok=True)` / `os.makedirs(..., exist_ok=True)`:
`none` models the raised error when a component exists as a plain file
(`FileExistsError`/`NotADirectoryError`); in that case nothing was created,
since the conflict is found before any new directory is made. -/
mutual
def mkdirp : Entry → List String → Option Entry
  | .dir cs p m s, [] => some (.dir cs p m s)
  | .file _ _ _ _, [] => none
  | .file _ _ _ _, _ :: _ => none
  | .dir cs p m s, n :: rest => (mkdirpIn cs n rest).map (fun cs2 => .dir cs2 p m s)
def mkdirpIn : Children → String → List String → Option Children
  | .nil, n, rest => some (.cons n (freshChain rest) .nil)
  | .cons m e cs, n, rest =>
    if m = n then (mkdirp e rest).map (fun e2 => .cons m e2 cs)
    else (mkdirpIn cs n rest).map (fun cs2 => .cons m e cs2)
end

/- `path.write_text(...)` at a relative location whose parent chain already
exists (the endpoint runs `mkdir(parents=True, exist_ok=True)` on the parent
first): overwrite an existing file's bytes, create a missing file
(mode `0o644`), and fail (`none`, an OS-level error) when the target is a
directory or the parent chain is broken. -/
mutual
def writeAt : Entry → List String → List Nat → Nat → Option Entry
  | .file _ p _ s, [], bytes, mt => some (.file bytes p mt s)
  | .dir _ _ _ _, [], _, _ => none
  | .file _ _ _ _, _ :: _, _, _ => none
  | .dir cs p m s, n :: rest, bytes, mt =>
    (writeAtIn cs n rest bytes mt).map (fun cs2 => .dir cs2 p m s)
def writeAtIn : Children → String → List String → List Nat → Nat → Option Children
  | .nil, n, [], bytes, mt => some (.cons n (.file bytes 420 mt true) .nil)
  | .nil, _, _ :: _, _, _ => none
  | .cons m e cs, n, rest, bytes, mt =>
    if m = n then (writeAt e rest bytes mt).map (fun e2 => .cons m e2 cs)
    else (writeAtIn cs n rest bytes mt).map (fun cs2 => .cons m e cs2)
end

/- Remove the entry at a non-empty relative path (`shutil.rmtree` for a
directory, `Path.unlink` for a file — both simply drop the node); a missing
path leaves the tree unchanged (the endpoint checks existence first). -/
mutual
def removeAt : Entry → List String → Entry
  | e, [] => e
  | .file c p m s, _ :: _ => .file c p m s
  | .dir cs p m s, n :: rest => .dir (removeAtIn cs n rest) p m s
def removeAtIn : Children → String → List String → Children
  | .nil, _, _ => .nil
  | .cons m e cs, n, rest =>
    if m = n then
      match rest with
      | [] => cs
      | r :: rest2 => .cons m (removeAt e (r :: rest2)) cs
    else .cons m e (removeAtIn cs n rest)
end

/-- One file entry of `shutil.copytree`'s walk, i.e. `shutil.copy2(sn, dpath/n)`
acting on the destination directory's children `dcs`: when the destination
child is a directory whose stat succeeds, `copy2` joins the source's
basename onto it (targeting `dpath/n/n`); then `copyfile` raises
`SameFileError` when source and (joined) destination are the same path, and
raises an OS error when the final target is a directory; otherwise the
target file is created or overwritten with the source's bytes, permission
bits and timestamp (`copystat`).  The returned flag records a raised and
collected error (the children are then left unchanged). -/
def copy2Child (sn dpath : List String) (n : String) (c : List Nat) (p m : Nat)
    (dcs : Children) : Children × Bool :=
  match findChild dcs n with
  | some (.dir gcs gp gm gs) =>
    if gs then
      if sn = dpath ++ [n, n] then (dcs, true)
      else
        match findChild gcs n with
        | some (.dir _ _ _ _) => (dcs, true)
        | _ => (setChild dcs n (.dir (setChild gcs n (.file c p m true)) gp gm gs), false)
    else (dcs, true)
  | some (.file _ _ _ _) =>
    if sn = dpath ++ [n] then (dcs, true)
    else (setChild dcs n (.file c p m true), false)
  | none => (setChild dcs n (.file c p m true), false)

/-- The per-entry walk of `shutil.copytree(spath, dpath, dirs_exist_ok=True)`
over the source directory's children `scs`, merging into the destination
directory's children `dcs`.  A directory entry recurses (its `os.makedirs`
fails — error collected, subtree untouched — when the destination child is
a plain file or a directory whose stat fails); a file entry is copied by
`copy2Child`.  Errors are collected per entry while the remaining entries
are still copied, exactly as `copytree` accumulates into `shutil.Error`;
the flag records whether any error was collected. -/
def ctChildren : List String → List String → Children → Children → Children × Bool
  | _, _, .nil, dcs => (dcs, false)
  | spath, dpath, .cons n se scs', dcs =>
    match se with
    | .dir gcs gp gm _ =>
      match findChild dcs n with
      | some (.file _ _ _ _) =>
        let r := ctChildren spath dpath scs' dcs
        (r.1, true)
      | some (.dir hcs _ _ hs) =>
        if hs then
          let r1 := ctChildren (spath ++ [n]) (dpath ++ [n]) gcs hcs
          let r2 := ctChildren spath dpath scs' (setChild dcs n (.dir r1.1 gp gm true))
          (r2.1, r1.2 || r2.2)
        else
          let r := ctChildren spath dpath scs' dcs
          (r.1, true)
      | none =>
        let r1 := ctChildren (spath ++ [n]) (dpath ++ [n]) gcs .nil
        let r2 := ctChildren spath dpath scs' (setChild dcs n (.dir r1.1 gp gm true))
        (r2.1, r1.2 || r2.2)
    | .file c p m _ =>
      let r1 := copy2Child (spath ++ [n]) dpath n c p m dcs
      let r2 := ctChildren spath dpath scs' r1.1
      (r2.1, r1.2 || r2.2)

/-- A chain of fresh directories ending in the given entry (the
`os.makedirs` performed by `shutil.copytree` below a missing component). -/
def freshChainWith : List String → Entry → Entry
  | [], v => v
  | n :: rest, v => .dir (.cons n (freshChainWith rest v) .nil) 493 0 true

/- Place a value at a relative path, creating missing parent directories
(the `os.makedirs(dst)` inside `shutil.copytree`); `none` when a parent
component exists as a plain file. -/
mutual
def setAtCreate : Entry → List String → Entry → Option Entry
  | _, [], v => some v
  | .file _ _ _ _, _ :: _, _ => none
  | .dir cs p m s, n :: rest, v =>
    (setAtCreateIn cs n rest v).map (fun cs2 => .dir cs2 p m s)
def setAtCreateIn : Children → String → List String → Entry → Option Children
  | .nil, n, rest, v => some (.cons n (freshChainWith rest v) .nil)
  | .cons m e cs, n, rest, v =>
    if m = n then (setAtCreate e rest v).map (fun e2 => .cons m e2 cs)
    else (setAtCreateIn cs n rest v).map (fun cs2 => .cons m e cs2)
end

/- The `copyfile`-plus-`copystat` core of `shutil.copy2` at a target whose
directory join (appending the source's basename when the destination is a
directory) and same-file check have already been applied by the caller:
create or overwrite the target file with the source's bytes, permission
bits and timestamps; `none` (OS error) when the final target is a
directory or the parent chain is broken. -/
mutual
def copy2At : Entry → List String → List Nat → Nat → Nat → Option Entry
  | .file _ _ _ _, [], c, p, m => some (.file c p m true)
  | .dir _ _ _ _, [], _, _, _ => none
  | .file _ _ _ _, _ :: _, _, _, _ => none
  | .dir cs dp dm ds, n :: rest, c, p, m =>
    (copy2AtIn cs n rest c p m).map (fun cs2 => .dir cs2 dp dm ds)
def copy2AtIn : Children → String → List String → List Nat → Nat → Nat → Option Children
  | .nil, n, [], c, p, m => some (.cons n (.file c p m true) .nil)
  | .nil, _, _ :: _, _, _, _ => none
  | .cons mm e cs, n, rest, c, p, m =>
    if mm = n then (copy2At e rest c p m).map (fun e2 => .cons mm e2 cs)
    else (copy2AtIn cs n rest c p m).map (fun cs2 => .cons mm e cs2)
end

/-! ### Text codecs of `write_text` / `read_text` -/

/-- `str.encode('latin-1')`: one byte per code point below 256, error
(`UnicodeEncodeError`, modelled as `none`) otherwise. -/
def latin1Encode : List Char → Option (List Nat)
  | [] => some []
  | c :: cs =>
    if c.toNat < 256 then (latin1Encode cs).map (fun bs => c.toNat :: bs)
    else none

/-- Encoding of a text body with the caller-specified encoding, for the
codecs exercised in this development (`utf-8`, `latin-1`); any other codec
name is modelled as a lookup failure (`none`), which like a real
`LookupError` surfaces as HTTP 500. -/
def encodeText (enc : String) (s : String) : Option (List Nat) :=
  if enc = "utf-8" then some (utf8EncodeList s.data)
  else if enc = "latin-1" then latin1Encode s.data
  else none

/-! ### `get_file_info` and the endpoint handlers -/

/-- The `FileInfo` pydantic model.  `modified` keeps the raw `st_mtime`
timestamp (its ISO-8601 rendering is injective in the timestamp and kept
abstract). -/
structure FileInfo where
  name : String
  path : String
  type : String
  size : Option Nat
  modified : Nat
  permissions : String
deriving DecidableEq, Repr

/-- The `DirectoryListing` pydantic model. -/
structure DirectoryListing where
  path : String
  items : List FileInfo
deriving DecidableEq, Repr

/-- The octal digit character `oct` uses for a value below 8. -/
def octChar (d : Nat) : Char := Char.ofNat (48 + d)

/-- Octal digit characters of a number, most significant first, with
explicit fuel (`fuel ≥ n` always holds at the call sites, making the
fuel-exhausted fallback unreachable). -/
def octDigitsF : Nat → Nat → List Char
  | 0, n => [octChar (n % 8)]
  | fuel + 1, n => if n < 8 then [octChar n] else octDigitsF fuel (n / 8) ++ [octChar (n % 8)]

/-- Octal digit characters of a number, most significant first. -/
def octDigits (n : Nat) : List Char := octDigitsF n n

/-- The last `k` characters of a character list (Python slice `[-k:]` for a
string at least `k` long; for shorter strings the whole string, as in
Python). -/
def lastN (k : Nat) (l : List Char) : List Char := l.drop (l.length - k)

/-- Python `oct(n)[-3:]` — the last three characters of `"0o"` followed by
the octal digits — exactly as `get_file_info` renders permissions. -/
def pyOctLast3 (n : Nat) : String := ⟨lastN 3 ('0' :: 'o' :: octDigits n)⟩

/-- The three least-significant octal digits of a number, as a string (the
rendering the specification describes). -/
def octal3String (n : Nat) : String :=
  ⟨[octChar (n / 64 % 8), octChar (n / 8 % 8), octChar (n % 8)]⟩

/-- `str(path.relative_to(base))`: `.` for the root itself, otherwise the
components joined by `/`. -/
def joinRel : List String → String
  | [] => "."
  | r :: rs => rs.foldl (fun acc s => acc ++ "/" ++ s) r

/-- `str(path)` for an absolute component list. -/
def joinAbs (abs : List String) : String :=
  abs.foldl (fun acc s => acc ++ "/" ++ s) ""

/-- `get_file_info(path)` from `main.py`, for the entry found at the given
location; `name` is `path.name` and `relStr` is
`str(path.relative_to(BASE_DIR))`, both computed by the caller.  `none`
models the re-raised stat failure (caught per-child in `list_directory`,
surfaced as HTTP 500 by the info endpoint). -/
def get_file_info (name relStr : String) (e : Entry) : Option FileInfo :=
  match e with
  | .file c p mt s =>
    if s then some ⟨name, relStr, "file", some c.length, mt, pyOctLast3 (32768 + p)⟩
    else none
  | .dir _ p mt s =>
    if s then some ⟨name, relStr, "directory", none, mt, pyOctLast3 (16384 + p)⟩
    else none

/-- Code-point lexicographic comparison of character lists (Python string
`<`). -/
def strLtChars : List Char → List Char → Bool
  | [], [] => false
  | [], _ :: _ => true
  | _ :: _, [] => false
  | a :: as, b :: bs =>
    if a.toNat < b.toNat then true
    else if b.toNat < a.toNat then false
    else strLtChars as bs

/-- Python string comparison. -/
def strLt (a b : String) : Bool := strLtChars a.data b.data

/-- Insert into a by-name-sorted list of children (worker for
`sorted(dir_path.iterdir())`, which under a fixed parent orders by the name
string). -/
def insertByName (x : String × Entry) : List (String × Entry) → List (String × Entry)
  | [] => [x]
  | y :: ys => if strLt y.1 x.1 then y :: insertByName x ys else x :: y :: ys

/-- `sorted(dir_path.iterdir())` by child name. -/
def sortByName : List (String × Entry) → List (String × Entry)
  | [] => []
  | x :: xs => insertByName x (sortByName xs)

/-- The children of a directory as an association list, in enumeration
order. -/
def childrenToList : Children → List (String × Entry)
  | .nil => []
  | .cons n e cs => (n, e) :: childrenToList cs

/-- `list_directory` (`GET /files`) from `main.py`: resolve, 404 when the
location does not exist, 400 when it is not a directory, otherwise the
children sorted by name with each child described by `get_file_info`;
a child whose stat fails is skipped (`filterMap`). -/
def list_directory (base : List String) (fs : Entry) (path : String) :
    Except ApiError DirectoryListing :=
  match safe_path base path with
  | .error e => .error e
  | .ok abs =>
    let rel := abs.drop base.length
    if existsAt (some fs) rel then
      if isDirAt (some fs) rel then
        match lookup fs rel with
        | some (.dir cs _ _ _) =>
          .ok ⟨path, (sortByName (childrenToList cs)).filterMap
            (fun p => get_file_info p.1 (joinRel (rel ++ [p.1])) p.2)⟩
        | _ => .error ⟨500, "Server error"⟩
      else .error ⟨400, "Path is not a directory: " ++ path⟩
    else .error ⟨404, "Directory not found: " ++ path⟩

/-- The result of `read_file` (`GET /files/.../content`): decoded text with
its encoding, the structured binary-hint JSON payload, or the
`FileResponse` download (filename, `application/octet-stream`). -/
inductive ReadResult where
  | text : String → String → ReadResult
  | binaryHint : Option String → Nat → String → ReadResult
  | download : String → ReadResult
deriving DecidableEq, Repr

/-- Suffix test on character lists. -/
def listSuffix {α : Type} [DecidableEq α] (suf l : List α) : Bool :=
  listPre suf.reverse l.reverse

/-- `mimetypes.guess_type`, modelled for the extensions exercised here; an
unknown extension guesses `none`, as the stdlib does. -/
def guessMime (s : String) : Option String :=
  if listSuffix ".txt".data s.data then some "text/plain"
  else if listSuffix ".json".data s.data then some "application/json"
  else if listSuffix ".png".data s.data then some "image/png"
  else if listSuffix ".html".data s.data then some "text/html"
  else if listSuffix ".bin".data s.data then some "application/octet-stream"
  else none

/-- `path.name`: the final component of the absolute path. -/
def lastName (abs : List String) : String :=
  match abs.reverse with
  | [] => ""
  | n :: _ => n

/-- `read_file` (`GET /files/{file_path}/content`) from `main.py`: resolve,
404 when absent, 400 when not a file; with `download` set, the raw
`FileResponse`; otherwise `read_text(encoding='utf-8')` — a strict UTF-8
decode followed by text-mode universal-newline translation — and on
`UnicodeDecodeError` the structured binary-hint payload (mime guess on the
resolved path, byte size, download URL) instead of an error. -/
def read_file (base : List String) (fs : Entry) (path : String) (download : Bool) :
    Except ApiError ReadResult :=
  match safe_path base path with
  | .error e => .error e
  | .ok abs =>
    let rel := abs.drop base.length
    if existsAt (some fs) rel then
      if isFileAt (some fs) rel then
        if download then .ok (.download (lastName abs))
        else
          match lookup fs rel with
          | some (.file bytes _ _ _) =>
            match utf8DecodeChars bytes with
            | some chars => .ok (.text ⟨univNewlines chars⟩ "utf-8")
            | none => .ok (.binaryHint (guessMime (joinAbs abs)) bytes.length
                ("/files/" ++ path ++ "/content?download=true"))
          | _ => .error ⟨500, "Server error"⟩
      else .error ⟨400, "Path is not a file: " ++ path⟩
    else .error ⟨404, "File not found: " ++ path⟩

/-- The model timestamp a write stamps onto the written file. -/
def writeMtime : Nat := 1000

/-- `write_file` (`POST /files/{file_path}/content`) from `main.py`:
resolve, `path.parent.mkdir(parents=True, exist_ok=True)`, then
`path.write_text(content, encoding)`.  OS-level failures (parent conflict,
codec lookup, writing onto a directory) surface as HTTP 500 with `str(e)`
(modelled by fixed stand-in strings); the returned tree reflects the state
after the steps that did run. -/
def write_file (base : List String) (fs : Entry) (path content enc : String) :
    Except ApiError String × Entry :=
  match safe_path base path with
  | .error e => (.error e, fs)
  | .ok abs =>
    let rel := abs.drop base.length
    match mkdirp fs rel.dropLast with
    | none => (.error ⟨500, "Not a directory"⟩, fs)
    | some fs1 =>
      match encodeText enc content with
      | none => (.error ⟨500, "unknown encoding"⟩, fs1)
      | some bytes =>
        match writeAt fs1 rel bytes writeMtime with
        | none => (.error ⟨500, "Is a directory"⟩, fs1)
        | some fs2 => (.ok ("File " ++ path ++ " written successfully"), fs2)

/-- `delete_file_or_directory` (`DELETE /files/{file_path}`) from `main.py`:
resolve, 404 when absent, `shutil.rmtree` for a directory (removing it and
its entire contents — for the root itself this removes the whole tree),
`Path.unlink` for a file. -/
def delete_file_or_directory (base : List String) (fs : Option Entry) (path : String) :
    Except ApiError String × Option Entry :=
  match safe_path base path with
  | .error e => (.error e, fs)
  | .ok abs =>
    let rel := abs.drop base.length
    if existsAt fs rel then
      if isDirAt fs rel then
        match rel with
        | [] => (.ok ("Directory " ++ path ++ " deleted successfully"), none)
        | r :: rest =>
          (.ok ("Directory " ++ path ++ " deleted successfully"),
            fs.map (fun root => removeAt root (r :: rest)))
      else
        (.ok ("File " ++ path ++ " deleted successfully"),
          fs.map (fun root => removeAt root rel))
    else (.error ⟨404, "File or directory not found"⟩, fs)

/-- `copy_file_or_directory` (`POST /files/{source_path}/copy`) from
`main.py`: resolve both paths, 404 when the source is absent; a directory
source runs `shutil.copytree(src, dst, dirs_exist_ok=True)` — `os.makedirs`
of the destination and its missing parents, then the merging per-entry walk
`ctChildren`, raising `shutil.Error` (HTTP 500) when any per-entry error
was collected while keeping the entries that did copy; a file source runs
`dest.parent.mkdir(parents=True, exist_ok=True)` then `shutil.copy2`: the
basename is joined when the destination is a directory, `SameFileError` is
raised when source and joined destination coincide, and the copy otherwise
creates or overwrites the target.  OS-level failures surface as HTTP 500. -/
def copy_file_or_directory (base : List String) (fs : Entry)
    (source destination : String) : Except ApiError String × Entry :=
  match safe_path base source with
  | .error e => (.error e, fs)
  | .ok sabs =>
    match safe_path base destination with
    | .error e => (.error e, fs)
    | .ok dabs =>
      let srel := sabs.drop base.length
      let drel := dabs.drop base.length
      if existsAt (some fs) srel then
        match lookup fs srel with
        | some (.dir scs sp sm _) =>
          match lookup fs drel with
          | some (.file _ _ _ _) => (.error ⟨500, "File exists"⟩, fs)
          | some (.dir dcs _ _ ds) =>
            if ds then
              let r := ctChildren srel drel scs dcs
              match setAtCreate fs drel (.dir r.1 sp sm true) with
              | none => (.error ⟨500, "copytree failed"⟩, fs)
              | some fs2 =>
                if r.2 then (.error ⟨500, "copytree errors"⟩, fs2)
                else (.ok ("Copied " ++ source ++ " to " ++ destination), fs2)
            else (.error ⟨500, "File exists"⟩, fs)
          | none =>
            let r := ctChildren srel drel scs .nil
            match setAtCreate fs drel (.dir r.1 sp sm true) with
            | none => (.error ⟨500, "Not a directory"⟩, fs)
            | some fs2 =>
              if r.2 then (.error ⟨500, "copytree errors"⟩, fs2)
              else (.ok ("Copied " ++ source ++ " to " ++ destination), fs2)
        | some (.file c p m _) =>
          match mkdirp fs drel.dropLast with
          | none => (.error ⟨500, "Not a directory"⟩, fs)
          | some fs1 =>
            match lookup fs1 drel with
            | some (.dir _ _ _ ds) =>
              if ds then
                if drel ++ [lastName sabs] = srel then
                  (.error ⟨500, "are the same file"⟩, fs1)
                else
                  match copy2At fs1 (drel ++ [lastName sabs]) c p m with
                  | none => (.error ⟨500, "Is a directory"⟩, fs1)
                  | some fs2 => (.ok ("Copied " ++ source ++ " to " ++ destination), fs2)
              else (.error ⟨500, "Is a directory"⟩, fs1)
            | _ =>
              if drel = srel then (.error ⟨500, "are the same file"⟩, fs1)
              else
                match copy2At fs1 drel c p m with
                | none => (.error ⟨500, "copy2 failed"⟩, fs1)
                | some fs2 => (.ok ("Copied " ++ source ++ " to " ++ destination), fs2)
        | none => (.error ⟨500, "Server error"⟩, fs)
      else (.error ⟨404, "Source not found"⟩, fs)

/-! ### Resolver lemmas -/

theorem unquoteChars_cons_slash (l : List Char) :
    unquoteChars ('/' :: l) = '/' :: unquoteChars l := by
  have h : ¬ ('/' : Char) = '%' := by decide
  show unquoteAux ('/' :: l) [] = '/' :: unquoteAux l []
  rw [unquoteAux.eq_def]
  simp only [if_neg h]
  rfl

theorem listPre_refl {α : Type} [DecidableEq α] : ∀ l : List α, listPre l l = true
  | [] => rfl
  | a :: as => by simp [listPre, listPre_refl as]

theorem charEqOfToNatEq {a b : Char} (h : a.toNat = b.toNat) : a = b := by
  rw [← Char.ofNat_toNat a, ← Char.ofNat_toNat b, h]

theorem strLtChars_iff : ∀ l1 l2 : List Char, strLtChars l1 l2 = true ↔ l1 < l2
  | [], [] => by
    refine iff_of_false (by simp [strLtChars]) ?_
    intro h; cases h
  | [], b :: bs => iff_of_true rfl List.Lex.nil
  | a :: as, [] => by
    refine iff_of_false (by simp [strLtChars]) ?_
    intro h; cases h
  | a :: as, b :: bs => by
    simp only [strLtChars]
    by_cases hab : a.toNat < b.toNat
    · rw [if_pos hab]
      exact iff_of_true rfl (List.Lex.rel hab)
    · rw [if_neg hab]
      by_cases hba : b.toNat < a.toNat
      · rw [if_pos hba]
        refine iff_of_false (by simp) ?_
        intro h
        cases h with
        | cons h' => exact absurd hba (lt_irrefl _)
        | rel h' => exact hab h'
      · rw [if_neg hba]
        have heq : a = b := charEqOfToNatEq (by omega)
        subst heq
        rw [strLtChars_iff as bs]
        constructor
        · exact List.Lex.cons
        · intro h
          cases h with
          | cons h' => exact h'
          | rel h' => exact absurd h' (lt_irrefl a)

theorem strLt_iff (s t : String) : strLt s t = true ↔ s < t := by
  rw [String.lt_iff_toList_lt]
  exact strLtChars_iff s.data t.data

theorem strLt_false_iff (s t : String) : strLt s t = false ↔ ¬ s < t := by
  rw [← strLt_iff]
  cases strLt s t <;> simp

/-! ### Sorting lemmas for the directory listing -/

theorem mem_insertByName (x a : String × Entry) :
    ∀ l, a ∈ insertByName x l ↔ a = x ∨ a ∈ l
  | [] => by simp [insertByName]
  | y :: ys => by
    simp only [insertByName]
    by_cases h : strLt y.1 x.1
    · rw [if_pos h]
      simp only [List.mem_cons, mem_insertByName x a ys]
      tauto
    · rw [if_neg h]
      simp only [List.mem_cons]

theorem mem_sortByName (a : String × Entry) : ∀ l, a ∈ sortByName l ↔ a ∈ l
  | [] => Iff.rfl
  | x :: xs => by
    simp only [sortByName, mem_insertByName, mem_sortByName a xs, List.mem_cons]

theorem pairwise_insertByName (x : String × Entry) :
    ∀ l, List.Pairwise (fun p q : String × Entry => ¬ q.1 < p.1) l →
      List.Pairwise (fun p q : String × Entry => ¬ q.1 < p.1) (insertByName x l)
  | [] => fun _ => by simp [insertByName]
  | y :: ys => by
    intro h
    rw [List.pairwise_cons] at h
    simp only [insertByName]
    by_cases hyx : strLt y.1 x.1
    · rw [if_pos hyx]
      rw [List.pairwise_cons]
      refine ⟨?_, pairwise_insertByName x ys h.2⟩
      intro z hz
      rcases (mem_insertByName x z ys).1 hz with rfl | hz'
      · exact lt_asymm ((strLt_iff _ _).1 hyx)
      · exact h.1 z hz'
    · rw [if_neg hyx]
      have hxy : ¬ y.1 < x.1 := (strLt_false_iff _ _).1 (by
        cases hsl : strLt y.1 x.1
        · rfl
        · exact absurd hsl hyx)
      rw [List.pairwise_cons]
      refine ⟨?_, List.pairwise_cons.2 h⟩
      intro z hz
      rcases List.mem_cons.1 hz with rfl | hz'
      · exact hxy
      · intro hzx
        exact hxy (lt_of_le_of_lt (le_of_not_lt (h.1 z hz')) hzx)

theorem pairwise_sortByName :
    ∀ l, List.Pairwise (fun p q : String × Entry => ¬ q.1 < p.1) (sortByName l)
  | [] => List.Pairwise.nil
  | x :: xs => pairwise_insertByName x (sortByName xs) (pairwise_sortByName xs)

theorem pairwise_filterMap_names (f : String × Entry → Option FileInfo)
    (hf : ∀ p i, f p = some i → i.name = p.1) :
    ∀ l, List.Pairwise (fun p q : String × Entry => ¬ q.1 < p.1) l →
      List.Pairwise (fun a b : FileInfo => ¬ b.name < a.name) (l.filterMap f)
  | [] => fun _ => List.Pairwise.nil
  | p :: l => by
    intro h
    rw [List.pairwise_cons] at h
    rw [List.filterMap_cons]
    cases hfp : f p with
    | none => exact pairwise_filterMap_names f hf l h.2
    | some i =>
      rw [List.pairwise_cons]
      refine ⟨?_, pairwise_filterMap_names f hf l h.2⟩
      intro j hj
      obtain ⟨q, hq, hfq⟩ := List.mem_filterMap.1 hj
      rw [hf p i hfp, hf q j hfq]
      exact h.1 q hq

/-! ### Octal rendering lemmas (`oct(mode)[-3:]`) -/

theorem octDigitsF_stable (n : Nat) :
    ∀ f1 f2, n ≤ f1 → n ≤ f2 → octDigitsF f1 n = octDigitsF f2 n := by
  intro f1 f2 h1 h2
  match f1, f2 with
  | 0, 0 => rfl
  | 0, g2 + 1 =>
    have hn : n = 0 := by omega
    subst hn
    simp [octDigitsF]
  | g1 + 1, 0 =>
    have hn : n = 0 := by omega
    subst hn
    simp [octDigitsF]
  | g1 + 1, g2 + 1 =>
    by_cases h : n < 8
    · simp [octDigitsF, h]
    · simp only [octDigitsF, if_neg h]
      rw [octDigitsF_stable (n / 8) g1 g2 (by omega) (by omega)]
termination_by n
decreasing_by omega

theorem octDigits_lt8 (n : Nat) (h : n < 8) : octDigits n = [octChar n] := by
  match n with
  | 0 => simp [octDigits, octDigitsF]
  | m + 1 => simp [octDigits, octDigitsF, h]

theorem octDigits_ge8 (n : Nat) (h : 8 ≤ n) :
    octDigits n = octDigits (n / 8) ++ [octChar (n % 8)] := by
  obtain ⟨m, rfl⟩ : ∃ m, n = m + 1 := ⟨n - 1, by omega⟩
  show octDigitsF (m + 1) (m + 1) = _
  rw [octDigitsF, if_neg (by omega)]
  congr 1
  exact octDigitsF_stable ((m + 1) / 8) m ((m + 1) / 8) (by omega) (le_refl _)

theorem lastN3_append (xs : List Char) (a b c : Char) :
    lastN 3 (xs ++ [a, b, c]) = [a, b, c] := by
  unfold lastN
  rw [List.length_append]
  have h3 : xs.length + [a, b, c].length - 3 = xs.length := by simp
  rw [h3, List.drop_left]

theorem pyOctLast3_eq (n : Nat) (h : 64 ≤ n) : pyOctLast3 n = octal3String n := by
  have hdiv8 : n / 8 / 8 = n / 64 := by
    rw [Nat.div_div_eq_div_mul]
  by_cases h512 : n < 512
  · have e1 := octDigits_ge8 n (by omega)
    have e2 := octDigits_ge8 (n / 8) (by omega)
    have e3 := octDigits_lt8 (n / 64) (by omega)
    rw [hdiv8] at e2
    have hl : ('0' :: 'o' :: octDigits n) =
        ['0', 'o'] ++ [octChar (n / 64), octChar (n / 8 % 8), octChar (n % 8)] := by
      rw [e1, e2, e3]
      simp
    rw [pyOctLast3, hl, lastN3_append, octal3String]
    rw [Nat.mod_eq_of_lt (show n / 64 < 8 by omega)]
  · have e1 := octDigits_ge8 n (by omega)
    have e2 := octDigits_ge8 (n / 8) (by omega)
    have e3 := octDigits_ge8 (n / 64) (by omega)
    rw [hdiv8] at e2
    have hdiv64 : n / 64 / 8 = n / 512 := by
      rw [Nat.div_div_eq_div_mul]
    rw [hdiv64] at e3
    have hl : ('0' :: 'o' :: octDigits n) =
        ('0' :: 'o' :: octDigits (n / 512)) ++
          [octChar (n / 64 % 8), octChar (n / 8 % 8), octChar (n % 8)] := by
      rw [e1, e2, e3]
      simp
    rw [pyOctLast3, hl, lastN3_append, octal3String]

theorem safe_path_empty (base : List String) : safe_path base "" = Except.ok base := by
  have h0 : pathComponents ((unquoteChars "".data).dropWhile (fun c => c = '/')) =
      ([] : List String) := rfl
  simp [safe_path, h0, resolvePath, listPre_refl]

theorem safe_path_dot (base : List String) : safe_path base "." = Except.ok base := by
  have h0 : pathComponents ((unquoteChars ".".data).dropWhile (fun c => c = '/')) =
      ["."] := rfl
  simp [safe_path, h0, resolvePath, normStep, listPre_refl]

/-! ### Navigation lemmas for the filesystem tree -/

theorem lookupIn_append (q' r : List String)
    (ih : ∀ e : Entry, lookup e (q' ++ r) = (lookup e q').bind fun x => lookup x r) :
    ∀ (cs : Children) (n : String),
      lookupIn cs n (q' ++ r) = (lookupIn cs n q').bind fun x => lookup x r
  | .nil, n => rfl
  | .cons m e cs, n => by
    simp only [lookupIn]
    by_cases h : m = n
    · rw [if_pos h, if_pos h]
      exact ih e
    · rw [if_neg h, if_neg h]
      exact lookupIn_append q' r ih cs n

theorem lookup_append : ∀ (q r : List String) (e : Entry),
    lookup e (q ++ r) = (lookup e q).bind fun x => lookup x r
  | [], r, e => by cases e <;> rfl
  | n :: q', r, e => by
    cases e with
    | file c p m s => rfl
    | dir cs p m s =>
      show lookupIn cs n (q' ++ r) = (lookupIn cs n q').bind fun x => lookup x r
      exact lookupIn_append q' r (lookup_append q' r) cs n

theorem mkdirpIn_of_lookupIn (q' : List String)
    (ih : ∀ (e : Entry) (cs : Children) (p m : Nat) (s : Bool),
      lookup e q' = some (.dir cs p m s) → mkdirp e q' = some e) :
    ∀ (cs' : Children) (n : String) (cs : Children) (p m : Nat) (s : Bool),
      lookupIn cs' n q' = some (.dir cs p m s) → mkdirpIn cs' n q' = some cs'
  | .nil, n, cs, p, m, s => by
    intro h
    exact absurd h (by simp [lookupIn])
  | .cons mm e cs2, n, cs, p, m, s => by
    intro h
    simp only [lookupIn] at h
    simp only [mkdirpIn]
    by_cases hmn : mm = n
    · rw [if_pos hmn] at h ⊢
      rw [ih e cs p m s h]
      rfl
    · rw [if_neg hmn] at h ⊢
      rw [mkdirpIn_of_lookupIn q' ih cs2 n cs p m s h]
      rfl

theorem mkdirp_of_lookup_dir : ∀ (q : List String) (e : Entry) (cs : Children)
    (p m : Nat) (s : Bool),
    lookup e q = some (.dir cs p m s) → mkdirp e q = some e
  | [], e, cs, p, m, s => by
    intro h
    simp only [lookup] at h
    injection h with h'
    subst h'
    rfl
  | n :: q', e, cs, p, m, s => by
    intro h
    cases e with
    | file c' p' m' s' => exact absurd h (by simp [lookup])
    | dir cs' p' m' s' =>
      have h' : lookupIn cs' n q' = some (.dir cs p m s) := h
      show (mkdirpIn cs' n q').map (fun cs2 => Entry.dir cs2 p' m' s') =
        some (.dir cs' p' m' s')
      rw [mkdirpIn_of_lookupIn q' (mkdirp_of_lookup_dir q') cs' n cs p m s h']
      rfl

theorem writeAtIn_of_lookupIn (q' : List String) (bytes : List Nat) (mt : Nat)
    (ih : ∀ (e : Entry) (cs : Children) (p m : Nat) (s : Bool),
      lookup e q' = some (.dir cs p m s) → writeAt e q' bytes mt = none) :
    ∀ (cs' : Children) (n : String) (cs : Children) (p m : Nat) (s : Bool),
      lookupIn cs' n q' = some (.dir cs p m s) → writeAtIn cs' n q' bytes mt = none
  | .nil, n, cs, p, m, s => by
    intro h
    exact absurd h (by simp [lookupIn])
  | .cons mm e cs2, n, cs, p, m, s => by
    intro h
    simp only [lookupIn] at h
    simp only [writeAtIn]
    by_cases hmn : mm = n
    · rw [if_pos hmn] at h ⊢
      rw [ih e cs p m s h]
      rfl
    · rw [if_neg hmn] at h ⊢
      rw [writeAtIn_of_lookupIn q' bytes mt ih cs2 n cs p m s h]
      rfl

theorem writeAt_of_lookup_dir : ∀ (q : List String) (e : Entry) (cs : Children)
    (p m : Nat) (s : Bool) (bytes : List Nat) (mt : Nat),
    lookup e q = some (.dir cs p m s) → writeAt e q bytes mt = none
  | [], e, cs, p, m, s, bytes, mt => by
    intro h
    simp only [lookup] at h
    injection h with h'
    subst h'
    rfl
  | n :: q', e, cs, p, m, s, bytes, mt => by
    intro h
    cases e with
    | file c' p' m' s' => exact absurd h (by simp [lookup])
    | dir cs' p' m' s' =>
      have h' : lookupIn cs' n q' = some (.dir cs p m s) := h
      show (writeAtIn cs' n q' bytes mt).map (fun cs2 => Entry.dir cs2 p' m' s') = none
      rw [writeAtIn_of_lookupIn q' bytes mt
        (fun e cs p m s h => writeAt_of_lookup_dir q' e cs p m s bytes mt h)
        cs' n cs p m s h']
      rfl

theorem utf8DecodeAux_encodeChar (c : Char) (rest : List Nat) :
    utf8DecodeAux (utf8EncodeChar c.toNat ++ rest) =
      (utf8DecodeAux rest).map (c.toNat :: ·) := by
  have hv : c.toNat < 55296 ∨ 57344 ≤ c.toNat ∧ c.toNat < 1114112 := c.valid
  set n := c.toNat with hn
  by_cases h1 : n < 128
  · simp only [utf8EncodeChar, if_pos h1, List.cons_append, List.nil_append]
    rw [utf8DecodeAux]
    simp only [if_pos h1]
  · by_cases h2 : n < 2048
    · simp only [utf8EncodeChar, if_neg h1, if_pos h2, List.cons_append, List.nil_append]
      rw [utf8DecodeAux]
      have c1 : ¬ (192 + n / 64 < 128) := by omega
      have c2 : ¬ (192 + n / 64 < 194) := by omega
      have c3 : 192 + n / 64 < 224 := by omega
      rw [if_neg c1, if_neg c2, if_pos c3, utf8Dec2]
      have c4 : 128 ≤ 128 + n % 64 ∧ 128 + n % 64 < 192 := by omega
      rw [if_pos c4]
      have harith : (192 + n / 64 - 192) * 64 + (128 + n % 64 - 128) = n := by omega
      rw [harith]
    · by_cases h3 : n < 65536
      · simp only [utf8EncodeChar, if_neg h1, if_neg h2, if_pos h3, List.cons_append,
          List.nil_append]
        rw [utf8DecodeAux]
        have c1 : ¬ (224 + n / 4096 < 128) := by omega
        have c2 : ¬ (224 + n / 4096 < 194) := by omega
        have c3 : ¬ (224 + n / 4096 < 224) := by omega
        have c4 : 224 + n / 4096 < 240 := by omega
        rw [if_neg c1, if_neg c2, if_neg c3, if_pos c4, utf8Dec3]
        have c5 : (128 ≤ 128 + n / 64 % 64 ∧ 128 + n / 64 % 64 < 192) ∧
            (128 ≤ 128 + n % 64 ∧ 128 + n % 64 < 192) ∧
            (224 + n / 4096 = 224 → 160 ≤ 128 + n / 64 % 64) ∧
            (224 + n / 4096 = 237 → 128 + n / 64 % 64 < 160) :=
          ⟨by omega, by omega, fun he => by omega, fun he => by omega⟩
        rw [if_pos c5]
        have harith : (224 + n / 4096 - 224) * 4096 + (128 + n / 64 % 64 - 128) * 64 +
            (128 + n % 64 - 128) = n := by omega
        rw [harith]
      · simp only [utf8EncodeChar, if_neg h1, if_neg h2, if_neg h3, List.cons_append,
          List.nil_append]
        rw [utf8DecodeAux]
        have hub : n < 1114112 := by omega
        have c1 : ¬ (240 + n / 262144 < 128) := by omega
        have c2 : ¬ (240 + n / 262144 < 194) := by omega
        have c3 : ¬ (240 + n / 262144 < 224) := by omega
        have c4 : ¬ (240 + n / 262144 < 240) := by omega
        have c5 : 240 + n / 262144 < 245 := by omega
        rw [if_neg c1, if_neg c2, if_neg c3, if_neg c4, if_pos c5, utf8Dec4]
        have c6 : (128 ≤ 128 + n / 4096 % 64 ∧ 128 + n / 4096 % 64 < 192) ∧
            (128 ≤ 128 + n / 64 % 64 ∧ 128 + n / 64 % 64 < 192) ∧
            (128 ≤ 128 + n % 64 ∧ 128 + n % 64 < 192) ∧
            (240 + n / 262144 = 240 → 144 ≤ 128 + n / 4096 % 64) ∧
            (240 + n / 262144 = 244 → 128 + n / 4096 % 64 < 144) :=
          ⟨by omega, by omega, by omega, fun he => by omega, fun he => by omega⟩
        rw [if_pos c6]
        have harith : (240 + n / 262144 - 240) * 262144 +
            (128 + n / 4096 % 64 - 128) * 4096 +
            (128 + n / 64 % 64 - 128) * 64 + (128 + n % 64 - 128) = n := by omega
        rw [harith]

theorem utf8DecodeAux_encodeList : ∀ l : List Char,
    utf8DecodeAux (utf8EncodeList l) = some (l.map Char.toNat)
  | [] => rfl
  | c :: cs => by
    show utf8DecodeAux (utf8EncodeChar c.toNat ++ utf8EncodeList cs) = _
    rw [utf8DecodeAux_encodeChar c (utf8EncodeList cs), utf8DecodeAux_encodeList cs]
    rfl

theorem utf8DecodeChars_encodeList (l : List Char) :
    utf8DecodeChars (utf8EncodeList l) = some l := by
  rw [utf8DecodeChars, utf8DecodeAux_encodeList]
  show some ((l.map Char.toNat).map Char.ofNat) = some l
  rw [List.map_map]
  have h : (Char.ofNat ∘ Char.toNat) = id := funext Char.ofNat_toNat
  rw [h, List.map_id]

theorem univNewlines_of_no_cr : ∀ l : List Char, (∀ ch ∈ l, ¬ ch = '\r') →
    univNewlines l = l
  | [] => fun _ => rfl
  | c :: rest => by
    intro h
    have hc : ¬ c = '\r' := h c (List.mem_cons_self c rest)
    rw [univNewlines.eq_def]
    simp only [if_neg hc]
    rw [univNewlines_of_no_cr rest (fun ch hch => h ch (List.mem_cons_of_mem c hch))]

theorem mkdirpIn_total (q' : List String)
    (ih : ∀ e : Entry,
      (∀ p1 p2 : List String, q' = p1 ++ p2 →
        ∀ (c : List Nat) (pp mm : Nat) (ss : Bool),
          lookup e p1 ≠ some (.file c pp mm ss)) →
      ∃ e1, mkdirp e q' = some e1) :
    ∀ (cs : Children) (n : String),
      (∀ p1 p2 : List String, q' = p1 ++ p2 →
        ∀ (c : List Nat) (pp mm : Nat) (ss : Bool),
          lookupIn cs n p1 ≠ some (.file c pp mm ss)) →
      ∃ cs1, mkdirpIn cs n q' = some cs1
  | .nil, n => fun _ => ⟨.cons n (freshChain q') .nil, rfl⟩
  | .cons m e cs', n => by
    intro h
    by_cases hmn : m = n
    · obtain ⟨e1, he1⟩ := ih e (fun p1 p2 hp c pp mm ss hbad =>
        h p1 p2 hp c pp mm ss (by simp only [lookupIn, if_pos hmn]; exact hbad))
      refine ⟨.cons m e1 cs', ?_⟩
      simp only [mkdirpIn, if_pos hmn, he1]
      rfl
    · obtain ⟨cs1, hcs1⟩ := mkdirpIn_total q' ih cs' n (fun p1 p2 hp c pp mm ss hbad =>
        h p1 p2 hp c pp mm ss (by simp only [lookupIn, if_neg hmn]; exact hbad))
      refine ⟨.cons m e cs1, ?_⟩
      simp only [mkdirpIn, if_neg hmn, hcs1]
      rfl

theorem mkdirp_total : ∀ (q : List String) (fs : Entry),
    (∀ p1 p2 : List String, q = p1 ++ p2 →
      ∀ (c : List Nat) (pp mm : Nat) (ss : Bool),
        lookup fs p1 ≠ some (.file c pp mm ss)) →
    ∃ fs1, mkdirp fs q = some fs1
  | q, .file c p m s => by
    intro h
    exact absurd (show lookup (.file c p m s) [] = some (.file c p m s) from rfl)
      (h [] q (by simp) c p m s)
  | [], .dir cs p m s => fun _ => ⟨.dir cs p m s, rfl⟩
  | n :: q', .dir cs p m s => by
    intro h
    obtain ⟨cs1, hcs1⟩ := mkdirpIn_total q' (fun e he => mkdirp_total q' e he) cs n
      (fun p1 p2 hp c' pp mm ss hbad => by
        refine h (n :: p1) p2 (by rw [hp]; rfl) c' pp mm ss ?_
        exact hbad)
    refine ⟨.dir cs1 p m s, ?_⟩
    simp only [mkdirp, hcs1]
    rfl

theorem lookup_freshChain : ∀ q : List String,
    lookup (freshChain q) q = some (.dir .nil 493 0 true)
  | [] => rfl
  | n :: q' => by
    show lookupIn (.cons n (freshChain q') .nil) n q' = _
    simp only [lookupIn, if_pos rfl]
    exact lookup_freshChain q'

theorem mkdirpIn_fresh (q' : List String)
    (ih : ∀ e e2 : Entry, mkdirp e q' = some e2 → lookup e q' = none →
      lookup e2 q' = some (.dir .nil 493 0 true)) :
    ∀ (cs cs2 : Children) (n : String),
      mkdirpIn cs n q' = some cs2 → lookupIn cs n q' = none →
      lookupIn cs2 n q' = some (.dir .nil 493 0 true)
  | .nil, cs2, n => by
    intro hm hl
    simp only [mkdirpIn] at hm
    injection hm with hm'
    subst hm'
    show lookupIn (.cons n (freshChain q') .nil) n q' = _
    simp only [lookupIn, if_pos rfl]
    exact lookup_freshChain q'
  | .cons m e cs', cs2, n => by
    intro hm hl
    simp only [mkdirpIn] at hm
    simp only [lookupIn] at hl
    by_cases hmn : m = n
    · rw [if_pos hmn] at hm hl
      cases hmk : mkdirp e q' with
      | none => rw [hmk] at hm; exact absurd hm (by simp)
      | some e2 =>
        rw [hmk] at hm
        simp only [Option.map] at hm
        injection hm with hm'
        subst hm'
        show lookupIn (.cons m e2 cs') n q' = _
        simp only [lookupIn, if_pos hmn]
        exact ih e e2 hmk hl
    · rw [if_neg hmn] at hm hl
      cases hmk : mkdirpIn cs' n q' with
      | none => rw [hmk] at hm; exact absurd hm (by simp)
      | some cs2' =>
        rw [hmk] at hm
        simp only [Option.map] at hm
        injection hm with hm'
        subst hm'
        show lookupIn (.cons m e cs2') n q' = _
        simp only [lookupIn, if_neg hmn]
        exact mkdirpIn_fresh q' ih cs' cs2' n hmk hl

theorem mkdirp_fresh : ∀ (q : List String) (e e2 : Entry),
    mkdirp e q = some e2 → lookup e q = none →
    lookup e2 q = some (.dir .nil 493 0 true)
  | [], e, e2 => by
    intro hm hl
    cases e <;> simp [lookup] at hl
  | n :: q', e, e2 => by
    intro hm hl
    cases e with
    | file c p m s => simp [mkdirp] at hm
    | dir cs p m s =>
      simp only [mkdirp] at hm
      cases hmk : mkdirpIn cs n q' with
      | none => rw [hmk] at hm; exact absurd hm (by simp)
      | some cs2 =>
        rw [hmk] at hm
        simp only [Option.map] at hm
        injection hm with hm'
        subst hm'
        show lookupIn cs2 n q' = _
        exact mkdirpIn_fresh q' (mkdirp_fresh q') cs cs2 n hmk hl

theorem writeAtIn_under_empty (q' : List String) (nn : String) (bytes : List Nat) (mt : Nat)
    (ih : ∀ (e : Entry) (p' m' : Nat) (s' : Bool),
      lookup e q' = some (.dir .nil p' m' s') →
      ∃ e2, writeAt e (q' ++ [nn]) bytes mt = some e2 ∧
        lookup e2 (q' ++ [nn]) = some (.file bytes 420 mt true)) :
    ∀ (cs : Children) (n : String) (p' m' : Nat) (s' : Bool),
      lookupIn cs n q' = some (.dir .nil p' m' s') →
      ∃ cs2, writeAtIn cs n (q' ++ [nn]) bytes mt = some cs2 ∧
        lookupIn cs2 n (q' ++ [nn]) = some (.file bytes 420 mt true)
  | .nil, n, p', m', s' => by
    intro h
    exact absurd h (by simp [lookupIn])
  | .cons m e cs', n, p', m', s' => by
    intro h
    simp only [lookupIn] at h
    by_cases hmn : m = n
    · rw [if_pos hmn] at h
      obtain ⟨e2, hw, hl⟩ := ih e p' m' s' h
      refine ⟨.cons m e2 cs', ?_, ?_⟩
      · simp only [writeAtIn, if_pos hmn, hw]
        rfl
      · simp only [lookupIn, if_pos hmn]
        exact hl
    · rw [if_neg hmn] at h
      obtain ⟨cs2, hw, hl⟩ := writeAtIn_under_empty q' nn bytes mt ih cs' n p' m' s' h
      refine ⟨.cons m e cs2, ?_, ?_⟩
      · simp only [writeAtIn, if_neg hmn, hw]
        rfl
      · simp only [lookupIn, if_neg hmn]
        exact hl

theorem writeAt_under_empty : ∀ (q' : List String) (e : Entry) (p' m' : Nat) (s' : Bool)
    (nn : String) (bytes : List Nat) (mt : Nat),
    lookup e q' = some (.dir .nil p' m' s') →
    ∃ e2, writeAt e (q' ++ [nn]) bytes mt = some e2 ∧
      lookup e2 (q' ++ [nn]) = some (.file bytes 420 mt true)
  | [], e, p', m', s', nn, bytes, mt => by
    intro h
    simp only [lookup] at h
    injection h with h'
    subst h'
    refine ⟨.dir (.cons nn (.file bytes 420 mt true) .nil) p' m' s', rfl, ?_⟩
    show lookupIn (.cons nn (.file bytes 420 mt true) .nil) nn [] = _
    simp only [lookupIn, if_pos rfl]
    rfl
  | a :: q', e, p', m', s', nn, bytes, mt => by
    intro h
    cases e with
    | file c p m s => exact absurd h (by simp [lookup])
    | dir cs p m s =>
      have h' : lookupIn cs a q' = some (.dir .nil p' m' s') := h
      obtain ⟨cs2, hw, hl⟩ := writeAtIn_under_empty q' nn bytes mt
        (fun e p' m' s' he => writeAt_under_empty q' e p' m' s' nn bytes mt he)
        cs a p' m' s' h'
      refine ⟨.dir cs2 p m s, ?_, ?_⟩
      · show (writeAtIn cs a (q' ++ [nn]) bytes mt).map (fun cs2 => Entry.dir cs2 p m s) = _
        rw [hw]
        rfl
      · show lookupIn cs2 a (q' ++ [nn]) = _
        exact hl

theorem findChild_setChild_ne (n k : String) (v : Entry) (hk : ¬ n = k) :
    ∀ cs : Children, findChild (setChild cs n v) k = findChild cs k
  | .nil => by
    simp only [setChild, findChild, if_neg hk]
  | .cons m e cs' => by
    simp only [setChild]
    by_cases hmn : m = n
    · rw [if_pos hmn]
      simp only [findChild]
      subst hmn
      rw [if_neg hk, if_neg hk]
    · rw [if_neg hmn]
      simp only [findChild]
      by_cases hmk : m = k
      · rw [if_pos hmk, if_pos hmk]
      · rw [if_neg hmk, if_neg hmk]
        exact findChild_setChild_ne n k v hk cs'

theorem lookupIn_single : ∀ (cs : Children) (k : String),
    lookupIn cs k [] = findChild cs k
  | .nil, k => rfl
  | .cons m e cs', k => by
    simp only [lookupIn, findChild]
    by_cases hmk : m = k
    · rw [if_pos hmk, if_pos hmk]
      cases e <;> rfl
    · rw [if_neg hmk, if_neg hmk]
      exact lookupIn_single cs' k

theorem copy2Child_preserve (sn dpath : List String) (n : String) (c : List Nat)
    (p m : Nat) (dcs : Children) (k : String) (hk : ¬ n = k) :
    findChild (copy2Child sn dpath n c p m dcs).1 k = findChild dcs k := by
  unfold copy2Child
  cases hf : findChild dcs n with
  | none => exact findChild_setChild_ne n k _ hk dcs
  | some e =>
    cases e with
    | file c0 p0 m0 s0 =>
      by_cases hsn : sn = dpath ++ [n]
      · simp [hsn]
      · simp only [if_neg hsn]
        exact findChild_setChild_ne n k _ hk dcs
    | dir gcs gp gm gs =>
      cases gs with
      | false => simp
      | true =>
        by_cases hsn : sn = dpath ++ [n, n]
        · simp [hsn]
        · simp only [if_neg hsn, if_pos rfl]
          cases hg : findChild gcs n with
          | none => exact findChild_setChild_ne n k _ hk dcs
          | some ge =>
            cases ge with
            | file _ _ _ _ => exact findChild_setChild_ne n k _ hk dcs
            | dir _ _ _ _ => rfl

theorem ctChildren_preserve : ∀ (spath dpath : List String) (scs dcs : Children)
    (k : String), findChild scs k = none →
    findChild (ctChildren spath dpath scs dcs).1 k = findChild dcs k
  | spath, dpath, .nil, dcs, k => fun _ => rfl
  | spath, dpath, .cons n se scs', dcs, k => by
    intro hf
    simp only [findChild] at hf
    by_cases hnk : n = k
    · rw [if_pos hnk] at hf
      exact absurd hf (by simp)
    · rw [if_neg hnk] at hf
      cases se with
      | dir gcs gp gm gs =>
        simp only [ctChildren]
        cases hd : findChild dcs n with
        | none =>
          dsimp only
          rw [ctChildren_preserve spath dpath scs' _ k hf,
            findChild_setChild_ne n k _ hnk dcs]
        | some de =>
          cases de with
          | file _ _ _ _ =>
            dsimp only
            exact ctChildren_preserve spath dpath scs' dcs k hf
          | dir hcs hp hm hs =>
            cases hs with
            | false =>
              dsimp only
              exact ctChildren_preserve spath dpath scs' dcs k hf
            | true =>
              dsimp only
              rw [if_pos rfl]
              dsimp only
              rw [ctChildren_preserve spath dpath scs' _ k hf,
                findChild_setChild_ne n k _ hnk dcs]
      | file c p m s =>
        simp only [ctChildren]
        rw [ctChildren_preserve spath dpath scs' _ k hf,
          copy2Child_preserve (spath ++ [n]) dpath n c p m dcs k hnk]

theorem lookup_freshChainWith : ∀ (q : List String) (v : Entry),
    lookup (freshChainWith q v) q = some v
  | [], v => by cases v <;> rfl
  | n :: q', v => by
    show lookupIn (.cons n (freshChainWith q' v) .nil) n q' = _
    simp only [lookupIn, if_pos rfl]
    exact lookup_freshChainWith q' v

theorem setAtCreateIn_lookupIn (q' : List String) (v : Entry)
    (ih : ∀ e e2 : Entry, setAtCreate e q' v = some e2 → lookup e2 q' = some v) :
    ∀ (cs cs2 : Children) (n : String),
      setAtCreateIn cs n q' v = some cs2 → lookupIn cs2 n q' = some v
  | .nil, cs2, n => by
    intro hm
    simp only [setAtCreateIn] at hm
    injection hm with hm'
    subst hm'
    show lookupIn (.cons n (freshChainWith q' v) .nil) n q' = _
    simp only [lookupIn, if_pos rfl]
    exact lookup_freshChainWith q' v
  | .cons m e cs', cs2, n => by
    intro hm
    simp only [setAtCreateIn] at hm
    by_cases hmn : m = n
    · rw [if_pos hmn] at hm
      cases hs2 : setAtCreate e q' v with
      | none => rw [hs2] at hm; exact absurd hm (by simp)
      | some e2 =>
        rw [hs2] at hm
        simp only [Option.map] at hm
        injection hm with hm'
        subst hm'
        show lookupIn (.cons m e2 cs') n q' = _
        simp only [lookupIn, if_pos hmn]
        exact ih e e2 hs2
    · rw [if_neg hmn] at hm
      cases hs2 : setAtCreateIn cs' n q' v with
      | none => rw [hs2] at hm; exact absurd hm (by simp)
      | some cs2' =>
        rw [hs2] at hm
        simp only [Option.map] at hm
        injection hm with hm'
        subst hm'
        show lookupIn (.cons m e cs2') n q' = _
        simp only [lookupIn, if_neg hmn]
        exact setAtCreateIn_lookupIn q' v ih cs' cs2' n hs2

theorem setAtCreate_lookup : ∀ (q : List String) (fs v fs2 : Entry),
    setAtCreate fs q v = some fs2 → lookup fs2 q = some v
  | [], fs, v, fs2 => by
    intro hm
    have hm' : some v = some fs2 := by
      cases fs <;> exact hm
    injection hm' with hm''
    subst hm''
    cases v <;> rfl
  | n :: q', fs, v, fs2 => by
    intro hm
    cases fs with
    | file c p m s => exact absurd hm (by simp [setAtCreate])
    | dir cs p m s =>
      simp only [setAtCreate] at hm
      cases hs2 : setAtCreateIn cs n q' v with
      | none => rw [hs2] at hm; exact absurd hm (by simp)
      | some cs2 =>
        rw [hs2] at hm
        simp only [Option.map] at hm
        injection hm with hm'
        subst hm'
        show lookupIn cs2 n q' = _
        exact setAtCreateIn_lookupIn q' v
          (fun e e2 h => setAtCreate_lookup q' e v e2 h) cs cs2 n hs2

theorem copy2AtIn_lookupIn (q' : List String) (c : List Nat) (p m : Nat)
    (ih : ∀ e e2 : Entry, copy2At e q' c p m = some e2 →
      lookup e2 q' = some (.file c p m true)) :
    ∀ (cs cs2 : Children) (n : String),
      copy2AtIn cs n q' c p m = some cs2 →
      lookupIn cs2 n q' = some (.file c p m true)
  | .nil, cs2, n => by
    intro hm
    cases q' with
    | nil =>
      simp only [copy2AtIn] at hm
      injection hm with hm'
      subst hm'
      show lookupIn (.cons n (.file c p m true) .nil) n [] = _
      simp only [lookupIn, if_pos rfl]
      rfl
    | cons r rest => exact absurd hm (by simp [copy2AtIn])
  | .cons mm e cs', cs2, n => by
    intro hm
    simp only [copy2AtIn] at hm
    by_cases hmn : mm = n
    · rw [if_pos hmn] at hm
      cases hs2 : copy2At e q' c p m with
      | none => rw [hs2] at hm; exact absurd hm (by simp)
      | some e2 =>
        rw [hs2] at hm
        simp only [Option.map] at hm
        injection hm with hm'
        subst hm'
        show lookupIn (.cons mm e2 cs') n q' = _
        simp only [lookupIn, if_pos hmn]
        exact ih e e2 hs2
    · rw [if_neg hmn] at hm
      cases hs2 : copy2AtIn cs' n q' c p m with
      | none => rw [hs2] at hm; exact absurd hm (by simp)
      | some cs2' =>
        rw [hs2] at hm
        simp only [Option.map] at hm
        injection hm with hm'
        subst hm'
        show lookupIn (.cons mm e cs2') n q' = _
        simp only [lookupIn, if_neg hmn]
        exact copy2AtIn_lookupIn q' c p m ih cs' cs2' n hs2

theorem copy2At_lookup : ∀ (q : List String) (e : Entry) (c : List Nat) (p m : Nat)
    (e2 : Entry), copy2At e q c p m = some e2 → lookup e2 q = some (.file c p m true)
  | [], e, c, p, m, e2 => by
    intro hm
    cases e with
    | file c' p' m' s' =>
      simp only [copy2At] at hm
      injection hm with hm'
      subst hm'
      rfl
    | dir cs' p' m' s' => exact absurd hm (by simp [copy2At])
  | n :: q', e, c, p, m, e2 => by
    intro hm
    cases e with
    | file c' p' m' s' => exact absurd hm (by simp [copy2At])
    | dir cs p' m' s' =>
      simp only [copy2At] at hm
      cases hs2 : copy2AtIn cs n q' c p m with
      | none => rw [hs2] at hm; exact absurd hm (by simp)
      | some cs2 =>
        rw [hs2] at hm
        simp only [Option.map] at hm
        injection hm with hm'
        subst hm'
        show lookupIn cs2 n q' = _
        exact copy2AtIn_lookupIn q' c p m
          (fun e e2 h => copy2At_lookup q' e c p m e2 h) cs cs2 n hs2

theorem mkdirp_dropLast_of_lookup_dir (q : List String) (fs : Entry) (cs : Children)
    (p m : Nat) (s : Bool) (h : lookup fs q = some (.dir cs p m s)) :
    mkdirp fs q.dropLast = some fs := by
  cases hq : q with
  | nil =>
    subst hq
    simp only [lookup] at h
    injection h with h'
    subst h'
    rfl
  | cons n q' =>
    subst hq
    have hne : (n :: q') ≠ ([] : List String) := by simp
    have hdecomp := List.dropLast_append_getLast hne
    rw [← hdecomp, lookup_append] at h
    cases hpl : lookup fs (n :: q').dropLast with
    | none =>
      rw [hpl] at h
      exact absurd h (by simp)
    | some e' =>
      rw [hpl] at h
      cases e' with
      | file c'' p'' m'' s'' =>
        exact absurd h (by simp [lookup, lookupIn])
      | dir cs'' p'' m'' s'' =>
        exact mkdirp_of_lookup_dir _ fs cs'' p'' m'' s'' hpl

/-! ### Claims about the Path Resolver -/

/-- C3: the resolver's first three steps: an empty input denotes the sandbox
root itself; the input is URL-decoded exactly once (`%2e%2e%2f` becomes the
traversal `../` and is rejected when it escapes, while double-encoded
`%252e...` decodes only to the literal component `%2e...` and stays inside
the root); and a leading path separator is stripped, so a leading separator
is never interpreted as the OS-wide root (`/p` resolves exactly like `p`). -/
theorem c3_resolver_first_steps :
    (∀ base : List String, safe_path base "" = Except.ok base)
  ∧ (∀ (base : List String) (p : String),
        safe_path base ("/" ++ p) = safe_path base p)
  ∧ unquoteChars "%2e%2e%2f".data = "../".data
  ∧ unquoteChars "%252e".data = "%2e".data
  ∧ safe_path baseData "%2e%2e%2fsecret" = Except.error invalidPathError
  ∧ safe_path baseData "%252e%252e%252fsecret" =
      Except.ok ["data", "%2e%2e%2fsecret"] := by
  refine ⟨?_, ?_, rfl, rfl, rfl, rfl⟩
  · intro base
    have h0 : pathComponents ((unquoteChars "".data).dropWhile (fun c => c = '/')) =
        ([] : List String) := rfl
    simp [safe_path, h0, resolvePath, listPre_refl]
  · intro base p
    have hd : ("/" ++ p).data = '/' :: p.data := by
      rw [String.data_append]; rfl
    simp only [safe_path, hd, unquoteChars_cons_slash]
    simp [List.dropWhile]

/-! ### Claims about the Metadata Extractor -/

theorem get_file_info_name (name relStr : String) (e : Entry) (i : FileInfo)
    (h : get_file_info name relStr e = some i) : i.name = name := by
  cases e with
  | file c p mt s =>
    cases s with
    | false => exact absurd h (by simp [get_file_info])
    | true =>
      simp only [get_file_info, if_pos rfl] at h
      injection h with h'
      subst h'
      rfl
  | dir cs p mt s =>
    cases s with
    | false => exact absurd h (by simp [get_file_info])
    | true =>
      simp only [get_file_info, if_pos rfl] at h
      injection h with h'
      subst h'
      rfl

/-- C4: whenever `get_file_info` describes an entry, it reports a size only
for a plain file (the byte count; directories report `none`, distinct from
zero), and it renders the permissions as exactly the three
least-significant octal digits of the entry's `st_mode`, whatever the
higher mode bits are (the entry's permission bits are unconstrained here,
and the file-type bits differ between files and directories). -/
theorem c4_metadata_size_and_permissions (name relStr : String) (e : Entry)
    (i : FileInfo) (h : get_file_info name relStr e = some i) :
    i.size = (match e with
      | .file c _ _ _ => some c.length
      | .dir _ _ _ _ => none)
  ∧ i.permissions = octal3String e.stMode := by
  cases e with
  | file c p mt s =>
    cases s with
    | false => exact absurd h (by simp [get_file_info])
    | true =>
      simp only [get_file_info, if_pos rfl] at h
      injection h with h'
      subst h'
      exact ⟨rfl, pyOctLast3_eq (32768 + p) (by omega)⟩
  | dir cs p mt s =>
    cases s with
    | false => exact absurd h (by simp [get_file_info])
    | true =>
      simp only [get_file_info, if_pos rfl] at h
      injection h with h'
      subst h'
      exact ⟨rfl, pyOctLast3_eq (16384 + p) (by omega)⟩

/-- C4 witness: instantiation at a concrete regular file with permission
bits `0o644`. -/
theorem c4_witness :
    (FileInfo.mk "f" "f" "file" (some 3) 99 (pyOctLast3 (32768 + 420))).size = some 3
  ∧ (FileInfo.mk "f" "f" "file" (some 3) 99 (pyOctLast3 (32768 + 420))).permissions =
      octal3String (Entry.stMode (Entry.file [1, 2, 3] 420 99 true)) :=
  c4_metadata_size_and_permissions "f" "f" (Entry.file [1, 2, 3] 420 99 true)
    (FileInfo.mk "f" "f" "file" (some 3) 99 (pyOctLast3 (32768 + 420))) rfl

/-! ### Claims about the Directory Lister -/

/-- C5: `list_directory` fails with 404 `NotFound` when the resolved
location does not exist, with 400 `NotADirectory` when it exists but is a
plain file; on a directory it succeeds, the returned items are sorted by
name, an item appears exactly when it describes one of the directory's
immediate children whose metadata extraction succeeds (a child whose stat
fails is silently omitted), and an empty directory yields the empty
sequence rather than an error. -/
theorem c5_list_directory (base : List String) (fs : Entry) (path : String)
    (abs : List String) (hsp : safe_path base path = Except.ok abs) :
    (existsAt (some fs) (abs.drop base.length) = false →
        list_directory base fs path =
          Except.error ⟨404, "Directory not found: " ++ path⟩)
  ∧ (∀ c p m, lookup fs (abs.drop base.length) = some (.file c p m true) →
        list_directory base fs path =
          Except.error ⟨400, "Path is not a directory: " ++ path⟩)
  ∧ (∀ cs p m, lookup fs (abs.drop base.length) = some (.dir cs p m true) →
        ∃ items, list_directory base fs path = Except.ok ⟨path, items⟩
          ∧ List.Pairwise (fun a b : FileInfo => ¬ b.name < a.name) items
          ∧ (∀ i, i ∈ items ↔ ∃ pr, pr ∈ childrenToList cs ∧
              get_file_info pr.1 (joinRel (abs.drop base.length ++ [pr.1])) pr.2 = some i)
          ∧ (cs = Children.nil → items = [])) := by
  refine ⟨?_, ?_, ?_⟩
  · intro hex
    simp [list_directory, hsp, hex]
  · intro c p m hlook
    have hex : existsAt (some fs) (abs.drop base.length) = true := by
      simp [existsAt, lookupFS, hlook, Entry.statOk]
    have hdir : isDirAt (some fs) (abs.drop base.length) = false := by
      simp [isDirAt, lookupFS, hlook]
    simp [list_directory, hsp, hex, hdir]
  · intro cs p m hlook
    have hex : existsAt (some fs) (abs.drop base.length) = true := by
      simp [existsAt, lookupFS, hlook, Entry.statOk]
    have hdir : isDirAt (some fs) (abs.drop base.length) = true := by
      simp [isDirAt, lookupFS, hlook]
    refine ⟨(sortByName (childrenToList cs)).filterMap
      (fun pr => get_file_info pr.1
        (joinRel (abs.drop base.length ++ [pr.1])) pr.2), ?_, ?_, ?_, ?_⟩
    · simp [list_directory, hsp, hex, hdir, hlook]
    · exact pairwise_filterMap_names _
        (fun pr i hpi => get_file_info_name pr.1 _ pr.2 i hpi) _
        (pairwise_sortByName (childrenToList cs))
    · intro i
      simp only [List.mem_filterMap]
      constructor
      · rintro ⟨pr, hpr, hf⟩
        exact ⟨pr, (mem_sortByName pr (childrenToList cs)).1 hpr, hf⟩
      · rintro ⟨pr, hpr, hf⟩
        exact ⟨pr, (mem_sortByName pr (childrenToList cs)).2 hpr, hf⟩
    · rintro rfl
      rfl

/-- C5 witness: instantiation at a concrete one-child directory under the
root `/data`. -/
theorem c5_witness :
    ∃ items,
      list_directory baseData
        (Entry.dir (Children.cons "b" (Entry.file [1] 420 7 true) Children.nil)
          493 5 true) "" = Except.ok ⟨"", items⟩
    ∧ List.Pairwise (fun a b : FileInfo => ¬ b.name < a.name) items
    ∧ (∀ i, i ∈ items ↔ ∃ pr,
        pr ∈ childrenToList (Children.cons "b" (Entry.file [1] 420 7 true) Children.nil)
        ∧ get_file_info pr.1
            (joinRel ((["data"] : List String).drop baseData.length ++ [pr.1])) pr.2 =
            some i)
    ∧ (Children.cons "b" (Entry.file [1] 420 7 true) Children.nil = Children.nil →
        items = []) :=
  (c5_list_directory baseData
    (Entry.dir (Children.cons "b" (Entry.file [1] 420 7 true) Children.nil) 493 5 true)
    "" ["data"] rfl).2.2
    (Children.cons "b" (Entry.file [1] 420 7 true) Children.nil) 493 5 rfl

/-! ### Claims about the File Content Operations -/

/-- C6: `read_file` (text variant) fails with 404 `NotFound` when the
resolved path is absent and with 400 `NotAFile` when it resolves to a
directory; on an existing file whose bytes decode as UTF-8 it returns the
decoded content — with the text-mode universal-newline translation
`read_text` performs — and encoding `utf-8`, and on a file whose bytes
fail the UTF-8 decode it returns the structured binary-hint payload
(mime-type guess, byte size, download URL) rather than an error. -/
theorem c6_read_file (base : List String) (fs : Entry) (path : String)
    (abs : List String) (hsp : safe_path base path = Except.ok abs) :
    (existsAt (some fs) (abs.drop base.length) = false →
        read_file base fs path false = Except.error ⟨404, "File not found: " ++ path⟩)
  ∧ (∀ cs p m, lookup fs (abs.drop base.length) = some (.dir cs p m true) →
        read_file base fs path false =
          Except.error ⟨400, "Path is not a file: " ++ path⟩)
  ∧ (∀ c p m, lookup fs (abs.drop base.length) = some (.file c p m true) →
        (∀ l, utf8DecodeChars c = some l →
            read_file base fs path false =
              Except.ok (.text ⟨univNewlines l⟩ "utf-8"))
      ∧ (utf8DecodeChars c = none →
            read_file base fs path false = Except.ok (.binaryHint
              (guessMime (joinAbs abs)) c.length
              ("/files/" ++ path ++ "/content?download=true")))) := by
  refine ⟨?_, ?_, ?_⟩
  · intro hex
    simp [read_file, hsp, hex]
  · intro cs p m hlook
    have hex : existsAt (some fs) (abs.drop base.length) = true := by
      simp [existsAt, lookupFS, hlook, Entry.statOk]
    have hfile : isFileAt (some fs) (abs.drop base.length) = false := by
      simp [isFileAt, lookupFS, hlook]
    simp [read_file, hsp, hex, hfile]
  · intro c p m hlook
    have hex : existsAt (some fs) (abs.drop base.length) = true := by
      simp [existsAt, lookupFS, hlook, Entry.statOk]
    have hfile : isFileAt (some fs) (abs.drop base.length) = true := by
      simp [isFileAt, lookupFS, hlook]
    constructor
    · intro l hdec
      simp [read_file, hsp, hex, hfile, hlook, hdec]
    · intro hdec
      simp [read_file, hsp, hex, hfile, hlook, hdec]

/-- C6 witness: instantiation at a concrete UTF-8 text file `t.txt` with
content `hi`. -/
theorem c6_witness :
    read_file baseData
      (Entry.dir (Children.cons "t.txt" (Entry.file [104, 105] 420 7 true) Children.nil)
        493 5 true) "t.txt" false = Except.ok (.text "hi" "utf-8") :=
  ((c6_read_file baseData
    (Entry.dir (Children.cons "t.txt" (Entry.file [104, 105] 420 7 true) Children.nil)
      493 5 true) "t.txt" ["data", "t.txt"] rfl).2.2 [104, 105] 420 7 rfl).1
    ['h', 'i'] rfl

/-- C7 counterexample: the claim as stated fails on two counts, each at an
explicit concrete input below an empty root with missing parents.  First,
for a non-utf-8 caller-specified encoding: writing `é` with encoding
`latin-1` to `a/b/f.dat` succeeds, but the subsequent ReadText — which
always decodes utf-8 — returns the binary-hint payload, not the original
content with the original encoding `latin-1`.  Second, even with the
default utf-8 encoding the round trip is not byte-identical for
carriage-return content: writing `"x\r\n"` to `c/f.txt` succeeds, but
ReadText's text-mode universal-newline translation returns `"x\n"`. -/
theorem c7_counterexample :
    (write_file baseData (Entry.dir Children.nil 493 5 true) "a/b/f.dat" "é" "latin-1" =
      (Except.ok "File a/b/f.dat written successfully",
        Entry.dir (Children.cons "a" (Entry.dir (Children.cons "b" (Entry.dir
          (Children.cons "f.dat" (Entry.file [233] 420 writeMtime true) Children.nil)
          493 0 true) Children.nil) 493 0 true) Children.nil) 493 5 true)
    ∧ read_file baseData
        (Entry.dir (Children.cons "a" (Entry.dir (Children.cons "b" (Entry.dir
          (Children.cons "f.dat" (Entry.file [233] 420 writeMtime true) Children.nil)
          493 0 true) Children.nil) 493 0 true) Children.nil) 493 5 true)
        "a/b/f.dat" false =
        Except.ok (.binaryHint none 1 "/files/a/b/f.dat/content?download=true")
    ∧ ReadResult.binaryHint none 1 "/files/a/b/f.dat/content?download=true" ≠
        ReadResult.text "é" "latin-1")
  ∧ ((write_file baseData (Entry.dir Children.nil 493 5 true)
        "c/f.txt" "x\r\n" "utf-8").1 = Except.ok "File c/f.txt written successfully"
    ∧ read_file baseData
        (write_file baseData (Entry.dir Children.nil 493 5 true)
          "c/f.txt" "x\r\n" "utf-8").2
        "c/f.txt" false = Except.ok (.text "x\n" "utf-8")
    ∧ ("x\n" : String) ≠ "x\r\n") :=
  ⟨⟨rfl, rfl, by simp⟩, ⟨rfl, rfl, by decide⟩⟩

/-- C7 (amended): for every path whose parent directories do not yet exist
(`lookup` of the parent chain is `none`, and no ancestor of that chain is
occupied by an existing plain file — otherwise the locations are not
missing *directories* but blocked by a file and the write fails), WriteText
with the utf-8 encoding (the fixed encoding ReadText uses) and content free
of carriage returns succeeds, implicitly creating the missing intermediate
directories, and a subsequent ReadText of the same path returns
byte-identical content and that encoding.  The encoding and
carriage-return restrictions are the ones forced by `c7_counterexample`:
ReadText always decodes utf-8 and applies universal-newline translation. -/
theorem c7_write_read_roundtrip_utf8 (base : List String) (fs : Entry)
    (path content : String) (abs q : List String) (n : String)
    (hsp : safe_path base path = Except.ok abs)
    (hrel : abs.drop base.length = q ++ [n])
    (hparent : lookup fs q = none)
    (hnofile : ∀ p1 p2 : List String, q = p1 ++ p2 →
      ∀ (c : List Nat) (pp mm : Nat) (ss : Bool),
        lookup fs p1 ≠ some (.file c pp mm ss))
    (hcr : ∀ ch ∈ content.data, ¬ ch = '\r') :
    ∃ fs2, write_file base fs path content "utf-8" =
        (Except.ok ("File " ++ path ++ " written successfully"), fs2)
      ∧ read_file base fs2 path false = Except.ok (.text content "utf-8") := by
  obtain ⟨fs1, hmk⟩ := mkdirp_total q fs hnofile
  have hfresh := mkdirp_fresh q fs fs1 hmk hparent
  obtain ⟨fs2, hw, hl⟩ := writeAt_under_empty q fs1 493 0 true n
    (utf8EncodeList content.data) writeMtime hfresh
  have henc : encodeText "utf-8" content = some (utf8EncodeList content.data) := by
    simp [encodeText]
  refine ⟨fs2, ?_, ?_⟩
  · simp only [write_file, hsp, hrel, List.dropLast_concat, hmk, henc, hw]
  · have hex : existsAt (some fs2) (q ++ [n]) = true := by
      simp [existsAt, lookupFS, hl, Entry.statOk]
    have hfile : isFileAt (some fs2) (q ++ [n]) = true := by
      simp [isFileAt, lookupFS, hl]
    simp only [read_file, hsp, hrel, hex, hfile, hl, utf8DecodeChars_encodeList,
      univNewlines_of_no_cr content.data hcr,
      if_pos rfl, if_true, Bool.false_eq_true, if_false]

/-- C7 witness: writing `hi` to `a/b/f.txt` below an empty root creates
`a/b` and the read round trip returns `hi` with encoding `utf-8`. -/
theorem c7_witness :
    ∃ fs2, write_file baseData (Entry.dir Children.nil 493 5 true)
        "a/b/f.txt" "hi" "utf-8" =
        (Except.ok ("File " ++ "a/b/f.txt" ++ " written successfully"), fs2)
      ∧ read_file baseData fs2 "a/b/f.txt" false = Except.ok (.text "hi" "utf-8") :=
  c7_write_read_roundtrip_utf8 baseData (Entry.dir Children.nil 493 5 true)
    "a/b/f.txt" "hi" ["data", "a", "b", "f.txt"] ["a", "b"] "f.txt" rfl rfl rfl
    (fun p1 p2 hp c pp mm ss => by
      cases p1 with
      | nil => simp [lookup]
      | cons x xs => simp [lookup, lookupIn])
    (by decide)

/-! ### Claims about the Mutation Operations -/

/-- C8: Copy fails with 404 `NotFound` when the source is absent; for a
directory source it runs the recursive `copytree` merge into an existing
destination directory: when no per-entry error is collected (in particular
source and destination do not collide file-wise) the operation succeeds,
and every destination child whose name does not occur among the source's
children survives unchanged; for a file source it creates the
destination's missing parent directories and — destination not being a
directory and not the same file as the source — copies the file's bytes
and metadata (permission bits and timestamp), overwriting whatever file
was at the destination. -/
theorem c8_copy_semantics (base : List String) (fs : Entry)
    (source destination : String) (sabs dabs : List String)
    (hs : safe_path base source = Except.ok sabs)
    (hd : safe_path base destination = Except.ok dabs) :
    (lookup fs (sabs.drop base.length) = none →
        copy_file_or_directory base fs source destination =
          (Except.error ⟨404, "Source not found"⟩, fs))
  ∧ (∀ scs sp sm dcs dp dm dcs2 fs2,
        lookup fs (sabs.drop base.length) = some (.dir scs sp sm true) →
        lookup fs (dabs.drop base.length) = some (.dir dcs dp dm true) →
        ctChildren (sabs.drop base.length) (dabs.drop base.length) scs dcs =
          (dcs2, false) →
        setAtCreate fs (dabs.drop base.length) (.dir dcs2 sp sm true) = some fs2 →
        copy_file_or_directory base fs source destination =
          (Except.ok ("Copied " ++ source ++ " to " ++ destination), fs2)
        ∧ ∀ k, findChild scs k = none →
            lookup fs2 (dabs.drop base.length ++ [k]) = findChild dcs k)
  ∧ (∀ c p m fs1 fs2,
        lookup fs (sabs.drop base.length) = some (.file c p m true) →
        mkdirp fs (dabs.drop base.length).dropLast = some fs1 →
        (lookup fs1 (dabs.drop base.length) = none ∨
          ∃ c0 p0 m0 s0, lookup fs1 (dabs.drop base.length) =
            some (.file c0 p0 m0 s0)) →
        dabs.drop base.length ≠ sabs.drop base.length →
        copy2At fs1 (dabs.drop base.length) c p m = some fs2 →
        copy_file_or_directory base fs source destination =
          (Except.ok ("Copied " ++ source ++ " to " ++ destination), fs2)
        ∧ lookup fs2 (dabs.drop base.length) = some (.file c p m true)) := by
  refine ⟨?_, ?_, ?_⟩
  · intro hnone
    have hex : existsAt (some fs) (sabs.drop base.length) = false := by
      simp [existsAt, lookupFS, hnone]
    simp [copy_file_or_directory, hs, hd, hex]
  · intro scs sp sm dcs dp dm dcs2 fs2 hsl hdl hct hset
    have hex : existsAt (some fs) (sabs.drop base.length) = true := by
      simp [existsAt, lookupFS, hsl, Entry.statOk]
    constructor
    · simp only [copy_file_or_directory, hs, hd, hex, if_true, hsl, hdl, if_pos rfl,
        hct, hset, Bool.false_eq_true, if_false]
    · intro k hk
      rw [lookup_append]
      rw [setAtCreate_lookup _ fs (.dir dcs2 sp sm true) fs2 hset]
      show lookupIn dcs2 k [] = findChild dcs k
      rw [lookupIn_single]
      have hpre := ctChildren_preserve (sabs.drop base.length)
        (dabs.drop base.length) scs dcs k hk
      rw [hct] at hpre
      exact hpre
  · intro c p m fs1 fs2 hsl hmk hld hne hcp
    have hex : existsAt (some fs) (sabs.drop base.length) = true := by
      simp [existsAt, lookupFS, hsl, Entry.statOk]
    have hgoal : copy_file_or_directory base fs source destination =
        (Except.ok ("Copied " ++ source ++ " to " ++ destination), fs2) := by
      rcases hld with hld | ⟨c0, p0, m0, s0, hld⟩
      · simp only [copy_file_or_directory, hs, hd, hex, if_true, hsl, hmk, hld,
          if_neg hne, hcp]
      · simp only [copy_file_or_directory, hs, hd, hex, if_true, hsl, hmk, hld,
          if_neg hne, hcp]
    exact ⟨hgoal, copy2At_lookup _ fs1 c p m fs2 hcp⟩

/-- C8 witness: copying directory `s` (containing `x`) onto the existing
directory `d` (containing `y`) merges the trees with no error, and the
pre-existing unrelated file `y` survives unchanged in the destination. -/
theorem c8_witness :
    copy_file_or_directory baseData
      (Entry.dir (Children.cons "s" (Entry.dir
          (Children.cons "x" (Entry.file [1] 420 1 true) Children.nil) 493 2 true)
        (Children.cons "d" (Entry.dir
          (Children.cons "y" (Entry.file [2] 420 3 true) Children.nil) 493 4 true)
          Children.nil)) 493 5 true)
      "s" "d" =
      (Except.ok ("Copied " ++ "s" ++ " to " ++ "d"),
        Entry.dir (Children.cons "s" (Entry.dir
            (Children.cons "x" (Entry.file [1] 420 1 true) Children.nil) 493 2 true)
          (Children.cons "d" (Entry.dir
            (Children.cons "y" (Entry.file [2] 420 3 true)
              (Children.cons "x" (Entry.file [1] 420 1 true) Children.nil)) 493 2 true)
            Children.nil)) 493 5 true)
  ∧ lookup
      (Entry.dir (Children.cons "s" (Entry.dir
          (Children.cons "x" (Entry.file [1] 420 1 true) Children.nil) 493 2 true)
        (Children.cons "d" (Entry.dir
          (Children.cons "y" (Entry.file [2] 420 3 true)
            (Children.cons "x" (Entry.file [1] 420 1 true) Children.nil)) 493 2 true)
          Children.nil)) 493 5 true)
      ((["data", "d"] : List String).drop baseData.length ++ ["y"]) =
      findChild (Children.cons "y" (Entry.file [2] 420 3 true) Children.nil) "y" :=
  ⟨((c8_copy_semantics baseData
      (Entry.dir (Children.cons "s" (Entry.dir
          (Children.cons "x" (Entry.file [1] 420 1 true) Children.nil) 493 2 true)
        (Children.cons "d" (Entry.dir
          (Children.cons "y" (Entry.file [2] 420 3 true) Children.nil) 493 4 true)
          Children.nil)) 493 5 true)
      "s" "d" ["data", "s"] ["data", "d"] rfl rfl).2.1
      (Children.cons "x" (Entry.file [1] 420 1 true) Children.nil) 493 2
      (Children.cons "y" (Entry.file [2] 420 3 true) Children.nil) 493 4
      (Children.cons "y" (Entry.file [2] 420 3 true)
        (Children.cons "x" (Entry.file [1] 420 1 true) Children.nil))
      (Entry.dir (Children.cons "s" (Entry.dir
          (Children.cons "x" (Entry.file [1] 420 1 true) Children.nil) 493 2 true)
        (Children.cons "d" (Entry.dir
          (Children.cons "y" (Entry.file [2] 420 3 true)
            (Children.cons "x" (Entry.file [1] 420 1 true) Children.nil)) 493 2 true)
          Children.nil)) 493 5 true)
      rfl rfl rfl rfl).1,
   ((c8_copy_semantics baseData
      (Entry.dir (Children.cons "s" (Entry.dir
          (Children.cons "x" (Entry.file [1] 420 1 true) Children.nil) 493 2 true)
        (Children.cons "d" (Entry.dir
          (Children.cons "y" (Entry.file [2] 420 3 true) Children.nil) 493 4 true)
          Children.nil)) 493 5 true)
      "s" "d" ["data", "s"] ["data", "d"] rfl rfl).2.1
      (Children.cons "x" (Entry.file [1] 420 1 true) Children.nil) 493 2
      (Children.cons "y" (Entry.file [2] 420 3 true) Children.nil) 493 4
      (Children.cons "y" (Entry.file [2] 420 3 true)
        (Children.cons "x" (Entry.file [1] 420 1 true) Children.nil))
      (Entry.dir (Children.cons "s" (Entry.dir
          (Children.cons "x" (Entry.file [1] 420 1 true) Children.nil) 493 2 true)
        (Children.cons "d" (Entry.dir
          (Children.cons "y" (Entry.file [2] 420 3 true)
            (Children.cons "x" (Entry.file [1] 420 1 true) Children.nil)) 493 2 true)
          Children.nil)) 493 5 true)
      rfl rfl rfl rfl).2 "y" rfl⟩

/-- C9 (implicit): the containment check admits the sandbox root itself, so
Delete with an empty input path — or with `"."`, which also resolves to the
root — succeeds and recursively removes the root directory together with
its entire contents; nothing refuses to mutate the root. -/
theorem c9_delete_removes_root (base : List String) (cs : Children) (p m : Nat) :
    delete_file_or_directory base (some (.dir cs p m true)) "" =
      (Except.ok "Directory  deleted successfully", none)
  ∧ delete_file_or_directory base (some (.dir cs p m true)) "." =
      (Except.ok "Directory . deleted successfully", none) := by
  constructor
  · have h1 := safe_path_empty base
    simp only [delete_file_or_directory, h1, List.drop_length]
    simp [existsAt, lookupFS, lookup, Entry.statOk, isDirAt]
  · have h1 := safe_path_dot base
    simp only [delete_file_or_directory, h1, List.drop_length]
    simp [existsAt, lookupFS, lookup, Entry.statOk, isDirAt]

/-- C10 (implicit): `write_file` performs no kind-check, so a write to any
path that resolves to an existing directory fails with HTTP 500 (the
OS-level error raised by the underlying filesystem) and leaves the tree —
the directory and all of its contents — unchanged. -/
theorem c10_write_to_existing_directory (base : List String) (fs : Entry)
    (path content enc : String) (abs : List String) (cs : Children)
    (p m : Nat) (s : Bool)
    (hsp : safe_path base path = Except.ok abs)
    (hdir : lookup fs (abs.drop base.length) = some (.dir cs p m s)) :
    ∃ d, write_file base fs path content enc = (Except.error ⟨500, d⟩, fs) := by
  have hmk : mkdirp fs (abs.drop base.length).dropLast = some fs :=
    mkdirp_dropLast_of_lookup_dir _ fs cs p m s hdir
  have hwr : ∀ bytes, writeAt fs (abs.drop base.length) bytes writeMtime = none :=
    fun bytes => writeAt_of_lookup_dir _ fs cs p m s bytes writeMtime hdir
  cases henc : encodeText enc content with
  | none =>
    refine ⟨"unknown encoding", ?_⟩
    simp [write_file, hsp, hmk, henc]
  | some bytes =>
    refine ⟨"Is a directory", ?_⟩
    simp [write_file, hsp, hmk, henc, hwr bytes]

/-- C10 witness: writing to the existing directory `d` under root `/data`
fails with HTTP 500 and leaves the tree unchanged. -/
theorem c10_witness :
    ∃ d, write_file baseData
      (Entry.dir (Children.cons "d" (Entry.dir Children.nil 493 3 true) Children.nil)
        493 5 true) "d" "x" "utf-8" =
      (Except.error ⟨500, d⟩,
        Entry.dir (Children.cons "d" (Entry.dir Children.nil 493 3 true) Children.nil)
          493 5 true) :=
  c10_write_to_existing_directory baseData
    (Entry.dir (Children.cons "d" (Entry.dir Children.nil 493 3 true) Children.nil)
      493 5 true) "d" "x" "utf-8" ["data", "d"] Children.nil 493 3 true rfl rfl

end FsApi
